import Mathlib

/-!
Shallow embedding of the markdown-aware line-editing core of
`src/src/MarkdownEditor.cpp` (ghostwriter): line classification, the
continuation engine (`handleCarriageReturn`), the smart-backspace engine
(`handleBackspaceKey`), indent/outdent (`indentText`/`unindentText`), and the
delimiter-pairing engine (`insertPairedCharacters` /
`handleEndPairCharacterTyped`), together with theorems settling the frozen
claims about this code.

Lines are `List Char`; the document is a list of lines; the cursor is a
(row, column) pair plus an anchor pair (anchor = cursor means no selection),
matching `QTextCursor`'s position/anchor model restricted to valid states.
The `QMap<QChar, QChar>` member `markupPairs` and `QMap<QChar, bool>` member
`autoMatchFilter` are modelled as association lists kept in ascending key
order, exactly as `QMap` stores entries.
-/

/-- The null character `QChar()`, the value Qt returns for out-of-range
`QString` reads and absent `QMap` keys. -/
def nulChar : Char := Char.ofNat 0

/-- `QChar::isSpace` (also `\s` of `QRegExp`) restricted to Latin-1:
space, the five ASCII control whitespace characters, U+0085 and U+00A0.
(The higher Unicode Z* categories are omitted; no line handled by the
theorems below contains such characters.) -/
def isQtSpace (c : Char) : Bool :=
  c.toNat = 32 || (9 ≤ c.toNat && c.toNat ≤ 13) || c.toNat = 133 || c.toNat = 160

/-- The character class `[0-9]` of `numberedListRegex`. The quantified digit
searches (`QRegExp("\\d")`, `QRegExp("\\d+")`) in the editor run only on text
already validated against `[0-9]`, where Qt's wider `\d` coincides with this. -/
def isAsciiDigit (c : Char) : Bool :=
  48 ≤ c.toNat && c.toNat ≤ 57

/-- The character class `[+*-]` of `bulletListRegex` and of the backspace
handler's marker search. -/
def isBulletChar (c : Char) : Bool :=
  c.toNat = 43 || c.toNat = 42 || c.toNat = 45

/-- First index whose character satisfies `q` (`QString::indexOf` with a
single-character-class pattern; `none` models the return value -1). -/
def firstIdxWhere (q : Char → Bool) : List Char → Option Nat
  | [] => none
  | c :: t => if q c then some 0 else (firstIdxWhere q t).map (· + 1)

/-- Last index whose character satisfies `q` (`QString::lastIndexOf`). -/
def lastIdxWhere (q : Char → Bool) : List Char → Option Nat
  | [] => none
  | c :: t =>
    match lastIdxWhere q t with
    | some i => some (i + 1)
    | none => if q c then some 0 else none

/-- `QString::replace(QChar, QChar)`: replace every occurrence. -/
def replaceAllChar (old new : Char) (l : List Char) : List Char :=
  l.map (fun c => if c = old then new else c)

/-- Worker for `replaceDigitRuns`: the flag records whether the previous
character belonged to a digit run already rewritten. -/
def replaceDigitRunsGo (repl : List Char) : Bool → List Char → List Char
  | _, [] => []
  | inRun, c :: rest =>
    if isAsciiDigit c then
      (if inRun then [] else repl) ++ replaceDigitRunsGo repl true rest
    else c :: replaceDigitRunsGo repl false rest

/-- `QString::replace(QRegExp("\\d+"), repl)`: every maximal digit run is
replaced by `repl`. -/
def replaceDigitRuns (repl : List Char) (l : List Char) : List Char :=
  replaceDigitRunsGo repl false l

/-- Numeric value of a digit string. -/
def digitsToNat (l : List Char) : Nat :=
  l.foldl (fun acc c => acc * 10 + (c.toNat - 48)) 0

/-- `QString::toInt` on a nonempty `[0-9]+` capture: the value when it fits a
32-bit signed int, otherwise 0 (Qt returns 0 when conversion fails). -/
def qtToInt (l : List Char) : Nat :=
  if digitsToNat l ≤ 2147483647 then digitsToNat l else 0

/-- Decimal digits of a natural number (`QString("%1").arg(number)`). -/
def natToChars (n : Nat) : List Char :=
  (Nat.repr n).data

/-- Structural match of `numberedListRegex` = `^\s*([0-9]+)[.)]\s+` against
the start of a line, with greedy quantifier semantics (each character class is
disjoint from its successor, so greedy matching is deterministic).
Returns the leading whitespace, the captured digits, the punctuation, the
trailing required whitespace, and the unmatched remainder. -/
def numberedSplit (line : List Char) :
    Option (List Char × List Char × Char × List Char × List Char) :=
  let ws1 := line.takeWhile isQtSpace
  let r1 := line.dropWhile isQtSpace
  let ds := r1.takeWhile isAsciiDigit
  let r2 := r1.dropWhile isAsciiDigit
  if ds.isEmpty then none
  else
    match r2 with
    | [] => none
    | p :: r3 =>
      if p = '.' ∨ p = ')' then
        let ws2 := r3.takeWhile isQtSpace
        let r4 := r3.dropWhile isQtSpace
        if ws2.isEmpty then none else some (ws1, ds, p, ws2, r4)
      else none

/-- The text matched by `numberedListRegex` (the structural marker of a
numbered-list item), when the line matches. -/
def numberedMarkerOf (line : List Char) : Option (List Char) :=
  (numberedSplit line).map (fun q => q.1 ++ q.2.1 ++ q.2.2.1 :: q.2.2.2.1)

/-- `numberedListRegex.indexIn(line) >= 0` (the pattern is anchored). -/
def numberedMatch (line : List Char) : Bool :=
  (numberedSplit line).isSome

/-- `numberedListRegex.exactMatch(line)`: the whole line is the marker. -/
def numberedExact (line : List Char) : Bool :=
  match numberedSplit line with
  | some (_, _, _, _, rest) => rest.isEmpty
  | none => false

/-- Structural match of `bulletListRegex` = `^\s*[+*-]\s+`. -/
def bulletSplit (line : List Char) :
    Option (List Char × Char × List Char × List Char) :=
  let ws1 := line.takeWhile isQtSpace
  let r1 := line.dropWhile isQtSpace
  match r1 with
  | [] => none
  | m :: r2 =>
    if isBulletChar m then
      let ws2 := r2.takeWhile isQtSpace
      let r3 := r2.dropWhile isQtSpace
      if ws2.isEmpty then none else some (ws1, m, ws2, r3)
    else none

/-- The text matched by `bulletListRegex`, when the line matches. -/
def bulletMarkerOf (line : List Char) : Option (List Char) :=
  (bulletSplit line).map (fun q => q.1 ++ q.2.1 :: q.2.2.1)

/-- `bulletListRegex.indexIn(line) >= 0`. -/
def bulletMatch (line : List Char) : Bool :=
  (bulletSplit line).isSome

/-- `bulletListRegex.exactMatch(line)`. -/
def bulletExact (line : List Char) : Bool :=
  match bulletSplit line with
  | some (_, _, _, rest) => rest.isEmpty
  | none => false

/-- Structural match of `taskListRegex` = `^\s*[-] \[([x ])\]\s+`:
whitespace, a minus, one space, an opening bracket, the captured check
character (`x` or space), a closing bracket, then required whitespace. -/
def taskSplit (line : List Char) :
    Option (List Char × Char × List Char × List Char) :=
  match line.dropWhile isQtSpace with
  | '-' :: ' ' :: '[' :: chk :: ']' :: r2 =>
    if chk = 'x' ∨ chk = ' ' then
      if (r2.takeWhile isQtSpace).isEmpty then none
      else some (line.takeWhile isQtSpace, chk, r2.takeWhile isQtSpace,
        r2.dropWhile isQtSpace)
    else none
  | _ => none

/-- The text matched by `taskListRegex`, when the line matches. -/
def taskMarkerOf (line : List Char) : Option (List Char) :=
  (taskSplit line).map
    (fun q => q.1 ++ '-' :: ' ' :: '[' :: q.2.1 :: ']' :: q.2.2.1)

/-- `taskListRegex.indexIn(line) >= 0`. -/
def taskMatch (line : List Char) : Bool :=
  (taskSplit line).isSome

/-- `taskListRegex.exactMatch(line)`. -/
def taskExact (line : List Char) : Bool :=
  match taskSplit line with
  | some (_, _, _, rest) => rest.isEmpty
  | none => false

/-- Characters consumable by the `(>\s*)+` part of `blockquoteRegex`. -/
def isBqChainChar (c : Char) : Bool :=
  c = '>' || isQtSpace c

/-- Match of `blockquoteRegex` = `^ {0,3}(>\s*)+` against the start of a
line: at most three literal spaces, then a maximal run of `>` and whitespace
characters beginning with `>` (any such run is matched by `(>\s*)+`, and
greedy matching consumes all of it). -/
def blockquoteMatch (line : List Char) : Bool :=
  let sp := line.takeWhile (· = ' ')
  decide (sp.length ≤ 3) && decide ((line.dropWhile (· = ' ')).head? = some '>')

/-- The text matched by `blockquoteRegex`, when the line matches. -/
def blockquoteMarkerOf (line : List Char) : Option (List Char) :=
  if blockquoteMatch line then
    let sp := line.takeWhile (· = ' ')
    let r1 := line.dropWhile (· = ' ')
    some (sp ++ r1.takeWhile isBqChainChar)
  else none

/-- `blockquoteRegex.exactMatch(line)`. -/
def blockquoteExact (line : List Char) : Bool :=
  blockquoteMatch line &&
    ((line.dropWhile (· = ' ')).dropWhile isBqChainChar).isEmpty

/-- The block user states the editing engines distinguish
(`MarkdownStateNumberedList`, `MarkdownStateBulletPointList`,
`MarkdownStateBlockquote`, and everything else). -/
inductive MarkdownState where
  | numberedList
  | bulletPointList
  | blockquote
  | plain
deriving DecidableEq, Repr

/-- Modelled from the spec: the block user state read by the engines via
`cursor.block().userState()` is assigned by `MarkdownTokenizer`, which is not
under `src/`. Per the spec (section 4.1) classification is a pure function of
the line's own text, with matching order blockquote, numbered list, task list
item, bullet list, else plain; task-list and bullet lines both carry the
bullet-point-list state (the engines' own `taskListRegex` checks run under
`MarkdownStateBulletPointList`). -/
def userState (line : List Char) : MarkdownState :=
  if blockquoteMatch line then MarkdownState.blockquote
  else if numberedMatch line then MarkdownState.numberedList
  else if taskMatch line then MarkdownState.bulletPointList
  else if bulletMatch line then MarkdownState.bulletPointList
  else MarkdownState.plain

/-- `QMap` lookup (`contains`/internal find). Association lists are kept in
ascending key order, as `QMap` stores entries. -/
def qmapFind : List (Char × Char) → Char → Option Char
  | [], _ => none
  | (a, b) :: t, k => if a = k then some b else qmapFind t k

/-- `QMap::insert`, preserving ascending key order. -/
def qmapPut : List (Char × Char) → Char → Char → List (Char × Char)
  | [], k, v => [(k, v)]
  | (a, b) :: t, k, v =>
    if k < a then (k, v) :: (a, b) :: t
    else if k = a then (k, v) :: t
    else (a, b) :: qmapPut t k v

/-- Non-const `QMap::operator[]`: returns the stored value, inserting a
default-constructed `QChar()` entry first when the key is absent. -/
def qmapBracket (m : List (Char × Char)) (k : Char) :
    Char × List (Char × Char) :=
  match qmapFind m k with
  | some v => (v, m)
  | none => (nulChar, qmapPut m k nulChar)

/-- `QMap::value` with the default-constructed default. -/
def qmapValueD (m : List (Char × Char)) (k : Char) : Char :=
  (qmapFind m k).getD nulChar

/-- `QMap::contains`. -/
def qmapHasKey (m : List (Char × Char)) (k : Char) : Bool :=
  (qmapFind m k).isSome

/-- `QMap::values`: all mapped values in key order. -/
def qmapValuesOf (m : List (Char × Char)) : List Char :=
  m.map (fun p => p.2)

/-- `QMap::key(value)`: the first key (in key order) mapped to `v`, or the
default-constructed `QChar()` when there is none. -/
def qmapKeyOf (m : List (Char × Char)) (v : Char) : Char :=
  ((m.find? (fun p => p.2 = v)).map (fun p => p.1)).getD nulChar

/-- Boolean `QMap` lookup for `autoMatchFilter` (`QMap<QChar, bool>::value`,
default `false`). -/
def qmapBoolValue : List (Char × Bool) → Char → Bool
  | [], _ => false
  | (a, b) :: t, k => if a = k then b else qmapBoolValue t k

/-- `QMap<QChar, bool>::insert`, preserving ascending key order. -/
def qmapBoolPut : List (Char × Bool) → Char → Bool → List (Char × Bool)
  | [], k, v => [(k, v)]
  | (a, b) :: t, k, v =>
    if k < a then (k, v) :: (a, b) :: t
    else if k = a then (k, v) :: t
    else (a, b) :: qmapBoolPut t k v

/-- The nine markup pairs registered in the constructor:
`" ' ( [ { * _ `` <` mapped to `" ' ) ] } * _ `` >` (the backtick and brace
characters are written by code point). -/
def initMarkupPairs : List (Char × Char) :=
  [('"', '"'), (Char.ofNat 39, Char.ofNat 39), ('(', ')'), ('[', ']'),
   (Char.ofNat 123, Char.ofNat 125), ('*', '*'), ('_', '_'),
   (Char.ofNat 96, Char.ofNat 96), ('<', '>')].foldl
    (fun m p => qmapPut m p.1 p.2) []

/-- The constructor's auto-match filter: every registered opener enabled. -/
def initAutoMatchFilter : List (Char × Bool) :=
  [('"', true), (Char.ofNat 39, true), ('(', true), ('[', true),
   (Char.ofNat 123, true), ('*', true), ('_', true),
   (Char.ofNat 96, true), ('<', true)].foldl
    (fun m p => qmapBoolPut m p.1 p.2) []

/-- Global editor configuration consumed by the engines (section 6 of the
spec); the per-opener filter lives in `EditorState` since it is mutable. -/
structure EditorConfig where
  autoMatchEnabled : Bool
  bulletPointCyclingEnabled : Bool
  hemingwayModeEnabled : Bool
  insertSpacesForTabs : Bool
  tabWidth : Nat
deriving DecidableEq, Repr

/-- The mutable editor state: document lines, cursor (row, col), anchor
(equal to the cursor exactly when there is no selection), and the two
mutable `QMap` members of `MarkdownEditor`. -/
structure EditorState where
  lines : List (List Char)
  row : Nat
  col : Nat
  anchorRow : Nat
  anchorCol : Nat
  markupPairs : List (Char × Char)
  autoMatchFilter : List (Char × Bool)
deriving DecidableEq, Repr

/-- `cursor.block().text()`. -/
def currentLine (s : EditorState) : List Char :=
  s.lines.getD s.row []

/-- `cursor.hasSelection()`. -/
def hasSelection (s : EditorState) : Bool :=
  !(s.anchorRow == s.row && s.anchorCol == s.col)

/-- Row-major order on (row, column) positions, the order of absolute
`QTextCursor` offsets for valid positions. -/
def lexLe (a b : Nat × Nat) : Bool :=
  decide (a.1 < b.1) || (a.1 == b.1 && decide (a.2 ≤ b.2))

/-- `cursor.selectionStart()` as a (row, column) pair. -/
def selStartPos (s : EditorState) : Nat × Nat :=
  if lexLe (s.anchorRow, s.anchorCol) (s.row, s.col) then (s.anchorRow, s.anchorCol)
  else (s.row, s.col)

/-- `cursor.selectionEnd()` as a (row, column) pair. -/
def selEndPos (s : EditorState) : Nat × Nat :=
  if lexLe (s.anchorRow, s.anchorCol) (s.row, s.col) then (s.row, s.col)
  else (s.anchorRow, s.anchorCol)

/-- The classification the continuation engine switches on
(`cursor.block().userState()` in `handleCarriageReturn`). -/
def continuationClassification (s : EditorState) : MarkdownState :=
  userState (currentLine s)

/-- The classification the smart-backspace engine switches on
(`cursor.block().userState()` in `handleBackspaceKey`). -/
def backspaceClassification (s : EditorState) : MarkdownState :=
  userState (currentLine s)

/-- The classification the indent engine switches on
(`cursor.block().userState()` in `indentText`). -/
def indentClassification (s : EditorState) : MarkdownState :=
  userState (currentLine s)

/-- `getPriorIndentation()`: the leading-whitespace run of the current line. -/
def priorIndentationOf (line : List Char) : List Char :=
  line.takeWhile isQtSpace

/-- The end-of-line decision of `handleCarriageReturn`: the text to insert
after the newline and whether the (empty) list item terminates the list. -/
def continuationDecision (line : List Char) : List Char × Bool :=
  match userState line with
  | MarkdownState.numberedList =>
    match numberedSplit line with
    | some (ws1, ds, p, ws2, _) =>
      let mk := ws1 ++ ds ++ p :: ws2
      if line.length = mk.length then (priorIndentationOf line, true)
      else (replaceDigitRuns (natToChars (qtToInt ds + 1)) mk, false)
    | none => (priorIndentationOf line, false)
  | MarkdownState.bulletPointList =>
    match taskMarkerOf line with
    | some mk =>
      if line.length = mk.length then (priorIndentationOf line, true)
      else (replaceAllChar 'x' ' ' mk, false)
    | none =>
      match bulletMarkerOf line with
      | some mk =>
        if line.length = mk.length then (priorIndentationOf line, true)
        else (mk, false)
      | none => (priorIndentationOf line, false)
  | MarkdownState.blockquote => ((blockquoteMarkerOf line).getD [], false)
  | MarkdownState.plain => (priorIndentationOf line, false)

/-- `MarkdownEditor::handleCarriageReturn` (no selection; plain Return). -/
def handleCarriageReturn (s : EditorState) : EditorState :=
  let line := currentLine s
  if s.col < line.length then
    let ind := priorIndentationOf line
    let auto := if s.col < ind.length then ind.take s.col else ind
    { s with
      lines := s.lines.take s.row ++ [line.take s.col, auto ++ line.drop s.col] ++
        s.lines.drop (s.row + 1),
      row := s.row + 1, col := auto.length,
      anchorRow := s.row + 1, anchorCol := auto.length }
  else
    let dec := continuationDecision line
    if dec.2 then
      let ind := priorIndentationOf line
      { s with
        lines := s.lines.take s.row ++ [ind, []] ++ s.lines.drop (s.row + 1),
        row := s.row + 1, col := 0, anchorRow := s.row + 1, anchorCol := 0 }
    else
      { s with
        lines := s.lines.take s.row ++ [line, dec.1] ++ s.lines.drop (s.row + 1),
        row := s.row + 1, col := dec.1.length,
        anchorRow := s.row + 1, anchorCol := dec.1.length }

/-- The `backtrackIndex` computed by `handleBackspaceKey` for the three
structural block states (`-1` modelled as `none`). -/
def backspaceBacktrackIndex (line : List Char) : Option Nat :=
  match userState line with
  | MarkdownState.numberedList =>
    if numberedExact line then firstIdxWhere isAsciiDigit line else none
  | MarkdownState.bulletPointList =>
    if bulletExact line || taskExact line then firstIdxWhere isBulletChar line
    else none
  | MarkdownState.blockquote =>
    if blockquoteExact line then lastIdxWhere (· = '>') line else none
  | MarkdownState.plain => none

/-- `MarkdownEditor::handleBackspaceKey`. Returns whether the key was handled
together with the resulting state; the state is returned even when the key is
not handled because the `markupPairs[previousChar]` lookup uses the non-const
`QMap::operator[]`, whose default-entry insertion persists either way. -/
def handleBackspaceKey (cfg : EditorConfig) (s : EditorState) :
    Bool × EditorState :=
  if hasSelection s then (false, s)
  else
    let line := currentLine s
    match backspaceClassification s with
    | MarkdownState.plain =>
      if cfg.autoMatchEnabled && decide (0 < s.col) then
        let prevChar := line.getD (s.col - 1) nulChar
        let curChar := line.getD s.col nulChar
        let br := qmapBracket s.markupPairs prevChar
        let s1 := { s with markupPairs := br.2 }
        if br.1 = curChar then
          if s.col < line.length then
            (true, { s1 with
              lines := s1.lines.set s1.row (line.take (s.col - 1) ++ line.drop (s.col + 1)),
              col := s.col - 1, anchorRow := s1.row, anchorCol := s.col - 1 })
          else if s.row + 1 < s.lines.length then
            (true, { s1 with
              lines := s1.lines.take s1.row ++
                [line.take (s.col - 1) ++ s1.lines.getD (s1.row + 1) []] ++
                s1.lines.drop (s1.row + 2),
              col := s.col - 1, anchorRow := s1.row, anchorCol := s.col - 1 })
          else
            (true, { s1 with
              lines := s1.lines.set s1.row (line.take (s.col - 1)),
              col := s.col - 1, anchorRow := s1.row, anchorCol := s.col - 1 })
        else (false, s1)
      else (false, s)
    | _ =>
      match backspaceBacktrackIndex line with
      | some i =>
        (true,
          { s with
            lines := s.lines.set s.row (line.take i),
            col := min s.col i, anchorRow := s.row, anchorCol := min s.col i })
      | none => (false, s)

/-- The guard under which `handleBackspaceKey` reaches the paired-delimiter
collapse branch and performs the `blockText[cursor.positionInBlock()]` read. -/
def pairCollapseReached (cfg : EditorConfig) (s : EditorState) : Bool :=
  !hasSelection s && decide (backspaceClassification s = MarkdownState.plain) &&
    cfg.autoMatchEnabled && decide (0 < s.col)

/-- The bullet-marker rotation applied by `indentText`. -/
def cycleIndentMarker (c : Char) : Char :=
  if c = '*' then '-' else if c = '-' then '+' else '*'

/-- The bullet-marker rotation applied by `unindentText`. -/
def cycleOutdentMarker (c : Char) : Char :=
  if c = '*' then '+' else if c = '-' then '*' else '-'

/-- The indent unit inserted without a selection: `tabWidth` spaces when
space-insertion is enabled, else one tab character. -/
def indentUnit (cfg : EditorConfig) : List Char :=
  if cfg.insertSpacesForTabs then List.replicate cfg.tabWidth ' ' else ['\t']

/-- Apply `f` to the lines with indices in `[r1, r2]` (the block range
covered by a selection, as walked by the `while (block != end)` loops);
`r1 > r2` never arises since `selectionStart <= selectionEnd`. -/
def mapLineRange (f : List Char → List Char) :
    Nat → Nat → List (List Char) → List (List Char)
  | _, _, [] => []
  | 0, 0, l :: t => f l :: t
  | 0, r2 + 1, l :: t => f l :: mapLineRange f 0 r2 t
  | _ + 1, 0, l :: t => l :: t
  | r1 + 1, r2 + 1, l :: t => l :: mapLineRange f r1 r2 t

/-- `MarkdownEditor::indentText`. -/
def indentText (cfg : EditorConfig) (s : EditorState) : EditorState :=
  if hasSelection s then
    let unit := if cfg.insertSpacesForTabs then List.replicate cfg.tabWidth ' '
      else ['\t']
    let r1 := (selStartPos s).1
    let r2 := (selEndPos s).1
    { s with
      lines := mapLineRange (fun l => unit ++ l) r1 r2 s.lines,
      col := if r1 ≤ s.row ∧ s.row ≤ r2 then s.col + unit.length else s.col,
      anchorCol := if r1 ≤ s.anchorRow ∧ s.anchorRow ≤ r2 then
        s.anchorCol + unit.length else s.anchorCol }
  else
    let line := currentLine s
    match indentClassification s with
    | MarkdownState.numberedList =>
      let unit := if cfg.insertSpacesForTabs then List.replicate cfg.tabWidth ' '
        else ['\t']
      if numberedExact line then
        let line1 := replaceDigitRuns ['1'] line
        { s with lines := s.lines.set s.row (unit ++ line1),
                 col := (unit ++ line1).length,
                 anchorRow := s.row, anchorCol := (unit ++ line1).length }
      else
        { s with lines := s.lines.set s.row (line.take s.col ++ unit ++ line.drop s.col),
                 col := s.col + unit.length,
                 anchorRow := s.row, anchorCol := s.col + unit.length }
    | MarkdownState.bulletPointList =>
      let unit := if cfg.insertSpacesForTabs then List.replicate cfg.tabWidth ' '
        else ['\t']
      if bulletExact line then
        if cfg.bulletPointCyclingEnabled then
          let oldB := (line.dropWhile isQtSpace).headD nulChar
          let line1 := replaceAllChar oldB (cycleIndentMarker oldB) line
          { s with lines := s.lines.set s.row (unit ++ line1),
                   col := (unit ++ line1).length,
                   anchorRow := s.row, anchorCol := (unit ++ line1).length }
        else
          { s with lines := s.lines.set s.row (unit ++ line),
                   col := s.col + unit.length,
                   anchorRow := s.row, anchorCol := s.col + unit.length }
      else if taskExact line then
        { s with lines := s.lines.set s.row (unit ++ line),
                 col := s.col + unit.length,
                 anchorRow := s.row, anchorCol := s.col + unit.length }
      else
        { s with lines := s.lines.set s.row (line.take s.col ++ unit ++ line.drop s.col),
                 col := s.col + unit.length,
                 anchorRow := s.row, anchorCol := s.col + unit.length }
    | _ =>
      let amt := cfg.tabWidth - s.col % cfg.tabWidth
      let unit := if cfg.insertSpacesForTabs then List.replicate amt ' ' else ['\t']
      { s with lines := s.lines.set s.row (line.take s.col ++ unit ++ line.drop s.col),
               col := s.col + unit.length,
               anchorRow := s.row, anchorCol := s.col + unit.length }

/-- One step of `unindentText`'s per-line loop: delete one leading tab if
present, else up to `tabWidth` leading space characters. Returns the new line
and the number of characters removed. -/
def unindentLine (tw : Nat) (l : List Char) : List Char × Nat :=
  match l with
  | '\t' :: rest => (rest, 1)
  | _ =>
    let k := min tw (l.takeWhile (· = ' ')).length
    (l.drop k, k)

/-- `MarkdownEditor::unindentText`. After the per-line removal pass, the
bullet-cycling check runs on the last covered block (where the loop left the
local cursor), against its already-updated text and state. -/
def unindentText (cfg : EditorConfig) (s : EditorState) : EditorState :=
  let pr := if hasSelection s then ((selStartPos s).1, (selEndPos s).1)
    else (s.row, s.row)
  let r1 := pr.1
  let r2 := pr.2
  let lines1 := mapLineRange (fun l => (unindentLine cfg.tabWidth l).1) r1 r2 s.lines
  let col1 := if r1 ≤ s.row ∧ s.row ≤ r2 then
    s.col - (unindentLine cfg.tabWidth (currentLine s)).2 else s.col
  let acol1 := if r1 ≤ s.anchorRow ∧ s.anchorRow ≤ r2 then
    s.anchorCol - (unindentLine cfg.tabWidth (s.lines.getD s.anchorRow [])).2
    else s.anchorCol
  let lastLine := lines1.getD r2 []
  if decide (userState lastLine = MarkdownState.bulletPointList) &&
      bulletExact lastLine && cfg.bulletPointCyclingEnabled then
    let oldB := (lastLine.dropWhile isQtSpace).headD nulChar
    let line1 := replaceAllChar oldB (cycleOutdentMarker oldB) lastLine
    { s with lines := lines1.set r2 line1,
             col := if s.row = r2 then line1.length else col1,
             anchorCol := if s.anchorRow = r2 then line1.length else acol1 }
  else
    { s with lines := lines1, col := col1, anchorCol := acol1 }

/-- Default `QPlainTextEdit` behavior of deleting the selected range. -/
def deleteSelection (s : EditorState) : EditorState :=
  let p1 := selStartPos s
  let p2 := selEndPos s
  if p1.1 = p2.1 then
    let line := s.lines.getD p1.1 []
    { s with
      lines := s.lines.set p1.1 (line.take p1.2 ++ line.drop p2.2),
      row := p1.1, col := p1.2, anchorRow := p1.1, anchorCol := p1.2 }
  else
    let l1 := s.lines.getD p1.1 []
    let l2 := s.lines.getD p2.1 []
    { s with
      lines := s.lines.take p1.1 ++ [l1.take p1.2 ++ l2.drop p2.2] ++
        s.lines.drop (p2.1 + 1),
      row := p1.1, col := p1.2, anchorRow := p1.1, anchorCol := p1.2 }

/-- Default `QPlainTextEdit` Backspace: delete the selection, else the
character before the cursor, else merge with the previous line. -/
def defaultBackspace (s : EditorState) : EditorState :=
  if hasSelection s then deleteSelection s
  else if 0 < s.col then
    let line := currentLine s
    { s with
      lines := s.lines.set s.row (line.take (s.col - 1) ++ line.drop s.col),
      col := s.col - 1, anchorRow := s.row, anchorCol := s.col - 1 }
  else if 0 < s.row then
    let prev := s.lines.getD (s.row - 1) []
    { s with
      lines := s.lines.take (s.row - 1) ++ [prev ++ currentLine s] ++
        s.lines.drop (s.row + 1),
      row := s.row - 1, col := prev.length,
      anchorRow := s.row - 1, anchorCol := prev.length }
  else s

/-- Default `QPlainTextEdit` Delete: delete the selection, else the character
after the cursor, else merge with the next line. -/
def defaultDelete (s : EditorState) : EditorState :=
  if hasSelection s then deleteSelection s
  else
    let line := currentLine s
    if s.col < line.length then
      { s with
        lines := s.lines.set s.row (line.take s.col ++ line.drop (s.col + 1)),
        anchorRow := s.row, anchorCol := s.col }
    else if s.row + 1 < s.lines.length then
      { s with
        lines := s.lines.take s.row ++ [line ++ s.lines.getD (s.row + 1) []] ++
          s.lines.drop (s.row + 2),
        anchorRow := s.row, anchorCol := s.col }
    else s

/-- Default `QPlainTextEdit` character insertion (replacing any selection). -/
def defaultTypeChar (s : EditorState) (ch : Char) : EditorState :=
  let s1 := if hasSelection s then deleteSelection s else s
  let line := currentLine s1
  { s1 with
    lines := s1.lines.set s1.row (line.take s1.col ++ ch :: line.drop s1.col),
    col := s1.col + 1, anchorRow := s1.row, anchorCol := s1.col + 1 }

/-- Default `QPlainTextEdit` Return (replacing any selection). -/
def defaultReturn (s : EditorState) : EditorState :=
  let s1 := if hasSelection s then deleteSelection s else s
  let line := currentLine s1
  { s1 with
    lines := s1.lines.take s1.row ++ [line.take s1.col, line.drop s1.col] ++
      s1.lines.drop (s1.row + 1),
    row := s1.row + 1, col := 0, anchorRow := s1.row + 1, anchorCol := 0 }

/-- `MarkdownEditor::insertPairedCharacters`. `none` models returning
`false` (the caller then inserts the character normally). -/
def insertPairedCharacters (cfg : EditorConfig) (s : EditorState)
    (firstChar : Char) : Option EditorState :=
  if qmapHasKey s.markupPairs firstChar then
    let lastChar := qmapValueD s.markupPairs firstChar
    if hasSelection s then
      if (selStartPos s).1 = (selEndPos s).1 then
        let r := (selStartPos s).1
        let a := (selStartPos s).2
        let b := (selEndPos s).2
        let line := s.lines.getD r []
        some { s with
          lines := s.lines.set r
            (line.take a ++ firstChar :: ((line.take b).drop a ++ lastChar :: line.drop b)),
          row := r, col := b + 1, anchorRow := r, anchorCol := a + 1 }
      else none
    else
      if cfg.autoMatchEnabled && qmapBoolValue s.autoMatchFilter firstChar then
        let line := currentLine s
        some { s with
          lines := s.lines.set s.row
            (line.take s.col ++ firstChar :: lastChar :: line.drop s.col),
          col := s.col + 1, anchorRow := s.row, anchorCol := s.col + 1 }
      else none
  else none

/-- `MarkdownEditor::handleEndPairCharacterTyped`. `none` models returning
`false`. -/
def handleEndPairCharacterTyped (cfg : EditorConfig) (s : EditorState)
    (ch : Char) : Option EditorState :=
  let lookAhead := cfg.autoMatchEnabled && !hasSelection s &&
    (qmapValuesOf s.markupPairs).contains ch &&
    qmapBoolValue s.autoMatchFilter (qmapKeyOf s.markupPairs ch)
  if lookAhead then
    let line := currentLine s
    if s.col < line.length then
      if line.getD s.col nulChar = ch then
        some { s with col := s.col + 1, anchorRow := s.row, anchorCol := s.col + 1 }
      else none
    else none
  else none

/-- The default branch of `keyPressEvent` for a one-character key:
`handleEndPairCharacterTyped` first, then `insertPairedCharacters`, else the
base class inserts the character. -/
def typeCharacter (cfg : EditorConfig) (s : EditorState) (ch : Char) :
    EditorState :=
  match handleEndPairCharacterTyped cfg s ch with
  | some s1 => s1
  | none =>
    match insertPairedCharacters cfg s ch with
    | some s1 => s1
    | none => defaultTypeChar s ch

/-- `keyPressEvent` on `Key_Return` without modifiers. -/
def pressReturn (s : EditorState) : EditorState :=
  if hasSelection s then defaultReturn s else handleCarriageReturn s

/-- `keyPressEvent` on `Key_Backspace`: consumed outright in Hemingway mode;
otherwise `handleBackspaceKey`, falling back to the base class when it
returns false. -/
def pressBackspace (cfg : EditorConfig) (s : EditorState) : EditorState :=
  if cfg.hemingwayModeEnabled then s
  else
    let hb := handleBackspaceKey cfg s
    if hb.1 then hb.2 else defaultBackspace hb.2

/-- `keyPressEvent` on `Key_Delete`: consumed outright in Hemingway mode. -/
def pressDelete (cfg : EditorConfig) (s : EditorState) : EditorState :=
  if cfg.hemingwayModeEnabled then s else defaultDelete s

/-- The editing operations dispatched by `keyPressEvent`, plus the
`setAutoMatchEnabled(QChar, bool)` configuration slot. -/
inductive EditOp where
  | keyReturn
  | keyBackspace
  | keyDelete
  | keyTab
  | keyBacktab
  | keyChar (c : Char)
  | setAutoMatch (c : Char) (b : Bool)
deriving DecidableEq, Repr

/-- Apply one editing operation. -/
def applyOp (cfg : EditorConfig) (s : EditorState) : EditOp → EditorState
  | EditOp.keyReturn => pressReturn s
  | EditOp.keyBackspace => pressBackspace cfg s
  | EditOp.keyDelete => pressDelete cfg s
  | EditOp.keyTab => indentText cfg s
  | EditOp.keyBacktab => unindentText cfg s
  | EditOp.keyChar c => typeCharacter cfg s c
  | EditOp.setAutoMatch c b =>
    { s with autoMatchFilter := qmapBoolPut s.autoMatchFilter c b }

/-- Apply a sequence of editing operations. -/
def applyOps (cfg : EditorConfig) (ops : List EditOp) (s : EditorState) :
    EditorState :=
  ops.foldl (applyOp cfg) s

/-- A line as a character list (for concrete test states). -/
def strL (s : String) : List Char :=
  s.data

/-! ### Shared concrete configurations and states for witnesses -/

/-- The constructor defaults: auto-matching and bullet cycling enabled,
Hemingway mode off, literal tabs, tab width 4. -/
def cfgStd : EditorConfig :=
  { autoMatchEnabled := true, bulletPointCyclingEnabled := true,
    hemingwayModeEnabled := false, insertSpacesForTabs := false, tabWidth := 4 }

/-- A one-cursor editor state over the given lines with the constructor's
delimiter table and filter. -/
def mkState (ls : List (List Char)) (r c : Nat) : EditorState :=
  { lines := ls, row := r, col := c, anchorRow := r, anchorCol := c,
    markupPairs := initMarkupPairs, autoMatchFilter := initAutoMatchFilter }

/-- The invariant the delimiter table actually satisfies: every pair
registered in the constructor is still mapped unchanged, and any other entry
is a default-constructed (null-valued) addition. -/
def markupPairsFixed (m : List (Char × Char)) : Prop :=
  (∀ p ∈ initMarkupPairs, qmapFind m p.1 = some p.2) ∧
  ∀ p ∈ m, p ∈ initMarkupPairs ∨ p.2 = nulChar

instance (m : List (Char × Char)) : Decidable (markupPairsFixed m) := by
  unfold markupPairsFixed
  infer_instance

/-- The delimiter table as stored (ascending key order). -/
def initNinePairs : List (Char × Char) :=
  [('"', '"'), (Char.ofNat 39, Char.ofNat 39), ('(', ')'), ('*', '*'),
   ('<', '>'), ('[', ']'), ('_', '_'), (Char.ofNat 96, Char.ofNat 96),
   (Char.ofNat 123, Char.ofNat 125)]

/-! ### Helper lemmas about the character classes and list scanners -/

theorem isQtSpace_iff (c : Char) :
    isQtSpace c = true ↔
      (c.toNat = 32 ∨ (9 ≤ c.toNat ∧ c.toNat ≤ 13) ∨ c.toNat = 133 ∨ c.toNat = 160) := by
  simp [isQtSpace, Bool.or_eq_true, Bool.and_eq_true, decide_eq_true_iff]
  tauto

theorem not_digit_of_space {c : Char} (h : isQtSpace c = true) :
    isAsciiDigit c = false := by
  rw [isQtSpace_iff] at h
  simp only [isAsciiDigit, Bool.and_eq_false_iff, decide_eq_false_iff_not]
  omega

theorem not_bullet_of_space {c : Char} (h : isQtSpace c = true) :
    isBulletChar c = false := by
  rw [isQtSpace_iff] at h
  simp only [isBulletChar, Bool.or_eq_false_iff, decide_eq_false_iff_not]
  omega

theorem not_space_of_digit {c : Char} (h : isAsciiDigit c = true) :
    isQtSpace c = false := by
  cases hs : isQtSpace c with
  | false => rfl
  | true => rw [not_digit_of_space hs] at h; cases h

theorem not_space_of_bullet {c : Char} (h : isBulletChar c = true) :
    isQtSpace c = false := by
  cases hs : isQtSpace c with
  | false => rfl
  | true => rw [not_bullet_of_space hs] at h; cases h

theorem ne_gt_of_space {c : Char} (h : isQtSpace c = true) : c ≠ '>' := by
  rw [isQtSpace_iff] at h
  intro hc
  subst hc
  revert h
  decide

theorem toNat_ne_of_ne_char {c : Char} {d : Char} (h : c.toNat ≠ d.toNat) :
    c ≠ d := by
  intro hc
  exact h (by rw [hc])

theorem ne_gt_of_digit {c : Char} (h : isAsciiDigit c = true) : c ≠ '>' := by
  intro hc
  subst hc
  revert h
  decide

theorem ne_gt_of_bullet {c : Char} (h : isBulletChar c = true) : c ≠ '>' := by
  simp only [isBulletChar, Bool.or_eq_true, decide_eq_true_iff] at h
  intro hc
  subst hc
  simp at h

theorem takeWhile_append_all {q : Char → Bool} {u : List Char} (v : List Char)
    (h : ∀ c ∈ u, q c = true) :
    (u ++ v).takeWhile q = u ++ v.takeWhile q := by
  induction u with
  | nil => simp
  | cons a t ih =>
    simp only [List.cons_append, List.takeWhile_cons, h a (by simp)]
    simp [ih (fun c hc => h c (by simp [hc]))]

theorem dropWhile_append_all {q : Char → Bool} {u : List Char} (v : List Char)
    (h : ∀ c ∈ u, q c = true) :
    (u ++ v).dropWhile q = v.dropWhile q := by
  induction u with
  | nil => simp
  | cons a t ih =>
    simp only [List.cons_append, List.dropWhile_cons, h a (by simp)]
    simp [ih (fun c hc => h c (by simp [hc]))]

theorem takeWhile_cons_false {q : Char → Bool} {c : Char} (t : List Char)
    (h : q c = false) : (c :: t).takeWhile q = [] := by
  simp [List.takeWhile_cons, h]

theorem dropWhile_cons_false {q : Char → Bool} {c : Char} (t : List Char)
    (h : q c = false) : (c :: t).dropWhile q = c :: t := by
  simp [List.dropWhile_cons, h]

theorem head_dropWhile_false (q : Char → Bool) (l : List Char) :
    ∀ c, (l.dropWhile q).head? = some c → q c = false := by
  induction l with
  | nil => intro c h; cases h
  | cons a t ih =>
    intro c h
    rw [List.dropWhile_cons] at h
    by_cases ha : q a = true
    · exact ih c (by simpa [ha] using h)
    · simp only [Bool.not_eq_true] at ha
      simp [ha] at h
      exact h ▸ ha

theorem firstIdxWhere_append {q : Char → Bool} {u : List Char} {c : Char}
    (w : List Char) (hu : ∀ x ∈ u, q x = false) (hc : q c = true) :
    firstIdxWhere q (u ++ c :: w) = some u.length := by
  induction u with
  | nil => simp [firstIdxWhere, hc]
  | cons a t ih =>
    simp [List.cons_append, firstIdxWhere, hu a (by simp),
      ih (fun x hx => hu x (by simp [hx]))]

theorem set_getD_self (l : List (List Char)) (n : Nat) (h : n < l.length) :
    l.set n (l.getD n []) = l := by
  induction l generalizing n with
  | nil => simp at h
  | cons a t ih =>
    cases n with
    | zero => simp [List.getD]
    | succ m =>
      simp only [List.set, List.getD_cons_succ]
      rw [ih m (by simpa using h)]

theorem takeWhile_head_false {q : Char → Bool} {v : List Char}
    (h : ∀ c, v.head? = some c → q c = false) : v.takeWhile q = [] := by
  cases v with
  | nil => rfl
  | cons c t => exact takeWhile_cons_false t (h c rfl)

theorem dropWhile_head_false {q : Char → Bool} {v : List Char}
    (h : ∀ c, v.head? = some c → q c = false) : v.dropWhile q = v := by
  cases v with
  | nil => rfl
  | cons c t => exact dropWhile_cons_false t (h c rfl)

theorem numberedSplit_shape {line ws1 ds ws2 rest : List Char} {p : Char}
    (h : numberedSplit line = some (ws1, ds, p, ws2, rest)) :
    line = ws1 ++ ds ++ p :: ws2 ++ rest ∧
      (∀ c ∈ ws1, isQtSpace c = true) ∧ ds ≠ [] ∧
      (∀ c ∈ ds, isAsciiDigit c = true) ∧ (p = '.' ∨ p = ')') ∧ ws2 ≠ [] ∧
      (∀ c ∈ ws2, isQtSpace c = true) ∧
      (∀ c, rest.head? = some c → isQtSpace c = false) := by
  unfold numberedSplit at h
  cases h1 : ((line.dropWhile isQtSpace).takeWhile isAsciiDigit).isEmpty with
  | true => simp [h1] at h
  | false =>
    simp only [h1, Bool.false_eq_true, if_false] at h
    cases h2 : (line.dropWhile isQtSpace).dropWhile isAsciiDigit with
    | nil => simp [h2] at h
    | cons p0 r3 =>
      simp only [h2] at h
      by_cases h3 : p0 = '.' ∨ p0 = ')'
      · simp only [if_pos h3] at h
        cases h4 : (r3.takeWhile isQtSpace).isEmpty with
        | true => simp [h4] at h
        | false =>
          simp only [h4, Bool.false_eq_true, if_false, Option.some.injEq,
            Prod.mk.injEq] at h
          obtain ⟨e1, e2, e3, e4, e5⟩ := h
          subst e1; subst e2; subst e3; subst e4; subst e5
          refine ⟨?_, ?_, ?_, ?_, h3, ?_, ?_, ?_⟩
          · conv_lhs =>
              rw [← List.takeWhile_append_dropWhile isQtSpace line,
                ← List.takeWhile_append_dropWhile isAsciiDigit
                  (line.dropWhile isQtSpace),
                h2, ← List.takeWhile_append_dropWhile isQtSpace r3]
            simp
          · exact fun c hc => List.mem_takeWhile_imp hc
          · intro hnil
            rw [← List.isEmpty_iff] at hnil
            rw [hnil] at h1
            cases h1
          · exact fun c hc => List.mem_takeWhile_imp hc
          · intro hnil
            rw [← List.isEmpty_iff] at hnil
            rw [hnil] at h4
            cases h4
          · exact fun c hc => List.mem_takeWhile_imp hc
          · exact fun c hc => head_dropWhile_false isQtSpace r3 c hc
      · simp [if_neg h3] at h

theorem bulletSplit_shape {line ws1 ws2 rest : List Char} {m : Char}
    (h : bulletSplit line = some (ws1, m, ws2, rest)) :
    line = ws1 ++ m :: ws2 ++ rest ∧
      (∀ c ∈ ws1, isQtSpace c = true) ∧ isBulletChar m = true ∧ ws2 ≠ [] ∧
      (∀ c ∈ ws2, isQtSpace c = true) ∧
      (∀ c, rest.head? = some c → isQtSpace c = false) := by
  unfold bulletSplit at h
  cases h2 : line.dropWhile isQtSpace with
  | nil => simp [h2] at h
  | cons m0 r2 =>
    simp only [h2] at h
    cases h3 : isBulletChar m0 with
    | false => simp [h3] at h
    | true =>
      simp only [h3, if_true] at h
      cases h4 : (r2.takeWhile isQtSpace).isEmpty with
      | true => simp [h4] at h
      | false =>
        simp only [h4, Bool.false_eq_true, if_false, Option.some.injEq,
          Prod.mk.injEq] at h
        obtain ⟨e1, e2, e3, e4⟩ := h
        subst e1; subst e2; subst e3; subst e4
        refine ⟨?_, ?_, h3, ?_, ?_, ?_⟩
        · conv_lhs =>
            rw [← List.takeWhile_append_dropWhile isQtSpace line, h2,
              ← List.takeWhile_append_dropWhile isQtSpace r2]
          simp
        · exact fun c hc => List.mem_takeWhile_imp hc
        · intro hnil
          rw [← List.isEmpty_iff] at hnil
          rw [hnil] at h4
          cases h4
        · exact fun c hc => List.mem_takeWhile_imp hc
        · exact fun c hc => head_dropWhile_false isQtSpace r2 c hc

theorem taskSplit_shape {line ws1 ws2 rest : List Char} {chk : Char}
    (h : taskSplit line = some (ws1, chk, ws2, rest)) :
    line = ws1 ++ '-' :: ' ' :: '[' :: chk :: ']' :: ws2 ++ rest ∧
      (∀ c ∈ ws1, isQtSpace c = true) ∧ (chk = 'x' ∨ chk = ' ') ∧ ws2 ≠ [] ∧
      (∀ c ∈ ws2, isQtSpace c = true) ∧
      (∀ c, rest.head? = some c → isQtSpace c = false) := by
  unfold taskSplit at h
  split at h
  next chk0 r2 heq =>
    by_cases h3 : chk0 = 'x' ∨ chk0 = ' '
    · simp only [if_pos h3] at h
      cases h4 : (r2.takeWhile isQtSpace).isEmpty with
      | true => simp [h4] at h
      | false =>
        simp only [h4, Bool.false_eq_true, if_false, Option.some.injEq,
          Prod.mk.injEq] at h
        obtain ⟨e1, e2, e3, e4⟩ := h
        subst e1; subst e2; subst e3; subst e4
        refine ⟨?_, ?_, h3, ?_, ?_, ?_⟩
        · conv_lhs =>
            rw [← List.takeWhile_append_dropWhile isQtSpace line, heq,
              ← List.takeWhile_append_dropWhile isQtSpace r2]
          simp
        · exact fun c hc => List.mem_takeWhile_imp hc
        · intro hnil
          rw [← List.isEmpty_iff] at hnil
          rw [hnil] at h4
          cases h4
        · exact fun c hc => List.mem_takeWhile_imp hc
        · exact fun c hc => head_dropWhile_false isQtSpace r2 c hc
    · simp [if_neg h3] at h
  next => cases h

theorem not_digit_of_bullet {c : Char} (h : isBulletChar c = true) :
    isAsciiDigit c = false := by
  simp only [isBulletChar, Bool.or_eq_true, decide_eq_true_iff] at h
  simp only [isAsciiDigit, Bool.and_eq_false_iff, decide_eq_false_iff_not]
  omega

theorem takeWhile_space_of_shape {ws1 : List Char} {c0 : Char}
    (rest : List Char) (hws : ∀ c ∈ ws1, isQtSpace c = true)
    (hc0 : isQtSpace c0 = false) :
    (ws1 ++ c0 :: rest).takeWhile isQtSpace = ws1 := by
  rw [takeWhile_append_all (c0 :: rest) hws, takeWhile_cons_false rest hc0,
    List.append_nil]

theorem dropWhile_space_of_shape {ws1 : List Char} {c0 : Char}
    (rest : List Char) (hws : ∀ c ∈ ws1, isQtSpace c = true)
    (hc0 : isQtSpace c0 = false) :
    (ws1 ++ c0 :: rest).dropWhile isQtSpace = c0 :: rest := by
  rw [dropWhile_append_all (c0 :: rest) hws, dropWhile_cons_false rest hc0]

theorem bq_head_aux {ws1 : List Char} {c0 : Char} (rest : List Char)
    (hws : ∀ c ∈ ws1, isQtSpace c = true) (hc0 : isQtSpace c0 = false)
    (hgt : c0 ≠ '>') :
    ((ws1 ++ c0 :: rest).dropWhile (fun c => decide (c = ' '))).head? ≠
      some '>' := by
  induction ws1 with
  | nil =>
    have hsp : c0 ≠ ' ' := by
      intro hc
      rw [hc] at hc0
      cases hc0
    rw [List.nil_append, dropWhile_cons_false rest (by simp [hsp])]
    simp [hgt]
  | cons a t ih =>
    have ha := hws a (by simp)
    by_cases hsp : a = ' '
    · rw [List.cons_append, List.dropWhile_cons]
      simp only [hsp, decide_True]
      exact ih (fun c hc => hws c (by simp [hc]))
    · rw [List.cons_append, dropWhile_cons_false _ (by simp [hsp])]
      simp [ne_gt_of_space ha]

theorem blockquoteMatch_false {ws1 : List Char} {c0 : Char} (rest : List Char)
    (hws : ∀ c ∈ ws1, isQtSpace c = true) (hc0 : isQtSpace c0 = false)
    (hgt : c0 ≠ '>') : blockquoteMatch (ws1 ++ c0 :: rest) = false := by
  unfold blockquoteMatch
  rw [Bool.and_eq_false_iff]
  right
  rw [decide_eq_false_iff_not]
  exact bq_head_aux rest hws hc0 hgt

theorem userState_numbered {line : List Char} (h : numberedMatch line = true) :
    userState line = MarkdownState.numberedList := by
  rw [numberedMatch, Option.isSome_iff_exists] at h
  obtain ⟨⟨ws1, ds, p, ws2, rest⟩, hsp⟩ := h
  obtain ⟨hline, hws1, hdsne, hds, _, _, _, _⟩ := numberedSplit_shape hsp
  cases ds with
  | nil => exact absurd rfl hdsne
  | cons d0 ds1 =>
    have hd0 : isAsciiDigit d0 = true := hds d0 (by simp)
    have hbq : blockquoteMatch line = false := by
      rw [hline]
      simpa using blockquoteMatch_false (ds1 ++ p :: ws2 ++ rest) hws1
        (not_space_of_digit hd0) (ne_gt_of_digit hd0)
    unfold userState
    rw [hbq, numberedMatch, hsp]
    simp

theorem numberedSplit_none_of_nondigit {line r : List Char} {c0 : Char}
    (hdrop : line.dropWhile isQtSpace = c0 :: r)
    (hc0 : isAsciiDigit c0 = false) : numberedSplit line = none := by
  unfold numberedSplit
  rw [hdrop]
  simp [takeWhile_cons_false r hc0]

theorem userState_bullet {line ws1 ws2 rest : List Char} {m : Char}
    (h : bulletSplit line = some (ws1, m, ws2, rest)) :
    userState line = MarkdownState.bulletPointList := by
  obtain ⟨hline, hws1, hm, _, _, _⟩ := bulletSplit_shape h
  simp only [List.append_assoc, List.cons_append] at hline
  have hms : isQtSpace m = false := not_space_of_bullet hm
  have hbq : blockquoteMatch line = false := by
    rw [hline]
    exact blockquoteMatch_false (ws2 ++ rest) hws1 hms (ne_gt_of_bullet hm)
  have hdrop : line.dropWhile isQtSpace = m :: (ws2 ++ rest) := by
    rw [hline]
    exact dropWhile_space_of_shape (ws2 ++ rest) hws1 hms
  have hnum : numberedSplit line = none :=
    numberedSplit_none_of_nondigit hdrop (not_digit_of_bullet hm)
  unfold userState
  rw [hbq, numberedMatch, hnum]
  cases ht : taskMatch line with
  | true => simp [ht]
  | false =>
    rw [bulletMatch, h]
    simp [ht]

theorem userState_task {line ws1 ws2 rest : List Char} {chk : Char}
    (h : taskSplit line = some (ws1, chk, ws2, rest)) :
    userState line = MarkdownState.bulletPointList := by
  obtain ⟨hline, hws1, _, _, _, _⟩ := taskSplit_shape h
  simp only [List.append_assoc, List.cons_append] at hline
  have hms : isQtSpace '-' = false := by decide
  have hbq : blockquoteMatch line = false := by
    rw [hline]
    exact blockquoteMatch_false _ hws1 hms (by decide)
  have hdrop : line.dropWhile isQtSpace =
      '-' :: ' ' :: '[' :: chk :: ']' :: ws2 ++ rest := by
    rw [hline]
    exact dropWhile_space_of_shape _ hws1 hms
  have hnum : numberedSplit line = none :=
    numberedSplit_none_of_nondigit hdrop (by decide)
  unfold userState
  rw [hbq, numberedMatch, hnum, taskMatch, h]
  simp

theorem bulletSplit_build {ws1 ws2 rest : List Char} {m : Char}
    (hws1 : ∀ c ∈ ws1, isQtSpace c = true) (hm : isBulletChar m = true)
    (hws2ne : ws2 ≠ []) (hws2 : ∀ c ∈ ws2, isQtSpace c = true)
    (hrest : ∀ c, rest.head? = some c → isQtSpace c = false) :
    bulletSplit (ws1 ++ m :: ws2 ++ rest) = some (ws1, m, ws2, rest) := by
  have hms : isQtSpace m = false := not_space_of_bullet hm
  simp only [List.append_assoc, List.cons_append]
  unfold bulletSplit
  rw [dropWhile_space_of_shape (ws2 ++ rest) hws1 hms,
    takeWhile_space_of_shape (ws2 ++ rest) hws1 hms]
  simp only [hm, if_true]
  rw [takeWhile_append_all rest hws2, takeWhile_head_false hrest,
    List.append_nil, dropWhile_append_all rest hws2, dropWhile_head_false hrest]
  simp [List.isEmpty_iff, hws2ne]

theorem getD_set_self (l : List (List Char)) (n : Nat) (a : List Char)
    (h : n < l.length) : (l.set n a).getD n [] = a := by
  simp [List.getD, List.getElem?_set_self, h]

theorem row_lt_of_ne_nil {s : EditorState} (h : currentLine s ≠ []) :
    s.row < s.lines.length := by
  by_contra hge
  apply h
  unfold currentLine
  simp [List.getD, List.getElem?_eq_none (Nat.le_of_not_lt hge)]

theorem numberedExact_some {line : List Char}
    (h : numberedExact line = true) :
    ∃ ws1 ds p ws2, numberedSplit line = some (ws1, ds, p, ws2, []) := by
  unfold numberedExact at h
  cases hsp : numberedSplit line with
  | none => rw [hsp] at h; cases h
  | some q =>
    obtain ⟨ws1, ds, p, ws2, rest⟩ := q
    rw [hsp] at h
    simp only [List.isEmpty_iff] at h
    subst h
    exact ⟨ws1, ds, p, ws2, rfl⟩

theorem bulletExact_some {line : List Char} (h : bulletExact line = true) :
    ∃ ws1 m ws2, bulletSplit line = some (ws1, m, ws2, []) := by
  unfold bulletExact at h
  cases hsp : bulletSplit line with
  | none => rw [hsp] at h; cases h
  | some q =>
    obtain ⟨ws1, m, ws2, rest⟩ := q
    rw [hsp] at h
    simp only [List.isEmpty_iff] at h
    subst h
    exact ⟨ws1, m, ws2, rfl⟩

theorem taskExact_some {line : List Char} (h : taskExact line = true) :
    ∃ ws1 chk ws2, taskSplit line = some (ws1, chk, ws2, []) := by
  unfold taskExact at h
  cases hsp : taskSplit line with
  | none => rw [hsp] at h; cases h
  | some q =>
    obtain ⟨ws1, chk, ws2, rest⟩ := q
    rw [hsp] at h
    simp only [List.isEmpty_iff] at h
    subst h
    exact ⟨ws1, chk, ws2, rfl⟩

/-! ### C1 -/

/-- C1: block classification as used by the continuation, indent/outdent and
smart-backspace engines is a pure function of the current line's text alone:
two editor states with identical current-line text yield identical
classifications and identical classification-driven decisions, regardless of
neighboring lines or any other document state. -/
theorem classification_depends_only_on_line_text (s1 s2 : EditorState)
    (h : currentLine s1 = currentLine s2) :
    continuationClassification s1 = continuationClassification s2 ∧
      backspaceClassification s1 = backspaceClassification s2 ∧
      indentClassification s1 = indentClassification s2 ∧
      continuationDecision (currentLine s1) =
        continuationDecision (currentLine s2) ∧
      backspaceBacktrackIndex (currentLine s1) =
        backspaceBacktrackIndex (currentLine s2) := by
  unfold continuationClassification backspaceClassification
    indentClassification
  rw [h]
  exact ⟨rfl, rfl, rfl, rfl, rfl⟩

/-- Witness for C1: two documents that differ in every other line and in
cursor position but share the current line's text get the same decisions. -/
theorem classification_depends_only_on_line_text_witness :
    continuationClassification
        (mkState [strL "- x", strL "1. a"] 1 4) =
      continuationClassification
        (mkState [strL "zz", strL "1. a", strL "> q"] 1 0) ∧
    backspaceClassification (mkState [strL "- x", strL "1. a"] 1 4) =
      backspaceClassification (mkState [strL "zz", strL "1. a", strL "> q"] 1 0) := by
  have h := classification_depends_only_on_line_text
    (mkState [strL "- x", strL "1. a"] 1 4)
    (mkState [strL "zz", strL "1. a", strL "> q"] 1 0) (by decide)
  exact ⟨h.1, h.2.1⟩

/-! ### C10 -/

/-- C10: with Hemingway mode enabled, Backspace and Delete are consumed
without any change to the editor state — document text, every line, cursor
and selection included — for every state. -/
theorem hemingway_mode_consumes_deletion_keys (cfg : EditorConfig)
    (s : EditorState) (h : cfg.hemingwayModeEnabled = true) :
    pressBackspace cfg s = s ∧ pressDelete cfg s = s := by
  unfold pressBackspace pressDelete
  rw [h]
  exact ⟨rfl, rfl⟩

/-- Witness for C10 at a concrete state with a pending selection. -/
theorem hemingway_mode_consumes_deletion_keys_witness :
    pressBackspace { cfgStd with hemingwayModeEnabled := true }
        { mkState [strL "abc"] 0 2 with anchorCol := 0 } =
      { mkState [strL "abc"] 0 2 with anchorCol := 0 } ∧
    pressDelete { cfgStd with hemingwayModeEnabled := true }
        { mkState [strL "abc"] 0 2 with anchorCol := 0 } =
      { mkState [strL "abc"] 0 2 with anchorCol := 0 } :=
  hemingway_mode_consumes_deletion_keys
    { cfgStd with hemingwayModeEnabled := true }
    { mkState [strL "abc"] 0 2 with anchorCol := 0 } rfl

/-! ### C3 -/

/-- C3: for a numbered-list line whose entire content is exactly its captured
marker (an empty item, possibly indented), Enter at end of line with no
selection terminates the list: the current line is replaced by its
leading-whitespace indentation alone, the newly inserted line is empty, and
an empty line carries no list classification. -/
theorem numbered_empty_item_enter_terminates (s : EditorState)
    (ws1 ds ws2 : List Char) (p : Char)
    (hsel : hasSelection s = false)
    (hsp : numberedSplit (currentLine s) = some (ws1, ds, p, ws2, []))
    (hcol : s.col = (currentLine s).length) :
    pressReturn s =
      { s with
        lines := s.lines.take s.row ++
          [priorIndentationOf (currentLine s), []] ++ s.lines.drop (s.row + 1),
        row := s.row + 1, col := 0, anchorRow := s.row + 1, anchorCol := 0 } ∧
    priorIndentationOf (currentLine s) = ws1 ∧
    userState [] = MarkdownState.plain := by
  obtain ⟨hl, hws1, hdsne, hds, hp, hws2ne, hws2, _⟩ := numberedSplit_shape hsp
  rw [List.append_nil] at hl
  have hprior : priorIndentationOf (currentLine s) = ws1 := by
    cases ds with
    | nil => exact absurd rfl hdsne
    | cons d0 ds1 =>
      have hd0 := hds d0 (by simp)
      rw [priorIndentationOf, hl]
      simp only [List.append_assoc, List.cons_append]
      exact takeWhile_space_of_shape _ hws1 (not_space_of_digit hd0)
  have huser : userState (currentLine s) = MarkdownState.numberedList :=
    userState_numbered (by rw [numberedMatch, hsp]; rfl)
  have hlen : (currentLine s).length = (ws1 ++ ds ++ p :: ws2).length := by
    rw [hl]
  have hdec : continuationDecision (currentLine s) =
      (priorIndentationOf (currentLine s), true) := by
    unfold continuationDecision
    rw [huser, hsp]
    simp [hlen]
  refine ⟨?_, hprior, by decide⟩
  unfold pressReturn
  rw [hsel]
  simp only [Bool.false_eq_true, if_false]
  unfold handleCarriageReturn
  rw [hcol]
  simp [hdec]

/-- Witness for C3 at the indented empty item `"  3. "`. -/
theorem numbered_empty_item_enter_terminates_witness :
    pressReturn (mkState [strL "  3. "] 0 5) =
      { mkState [strL "  3. "] 0 5 with
        lines := [strL "  ", []], row := 1, col := 0,
        anchorRow := 1, anchorCol := 0 } := by
  have h := numbered_empty_item_enter_terminates (mkState [strL "  3. "] 0 5)
    (strL "  ") (strL "3") (strL " ") '.' (by decide) (by decide) (by decide)
  exact h.1.trans (by decide)

/-! ### C4 -/

theorem rdrGo_copy (repl : List Char) {u : List Char} (v : List Char)
    (hu : ∀ c ∈ u, isAsciiDigit c = false) :
    replaceDigitRunsGo repl false (u ++ v) =
      u ++ replaceDigitRunsGo repl false v := by
  induction u with
  | nil => simp
  | cons a t ih =>
    simp only [List.cons_append, replaceDigitRunsGo, hu a (by simp),
      Bool.false_eq_true, if_false]
    exact congrArg (List.cons a) (ih (fun c hc => hu c (by simp [hc])))

theorem rdrGo_true_skip (repl : List Char) {d : List Char} (v : List Char)
    (hd : ∀ c ∈ d, isAsciiDigit c = true) :
    replaceDigitRunsGo repl true (d ++ v) = replaceDigitRunsGo repl true v := by
  induction d with
  | nil => simp
  | cons a t ih =>
    simp only [List.cons_append, replaceDigitRunsGo, hd a (by simp), if_true]
    simpa using ih (fun c hc => hd c (by simp [hc]))

theorem rdrGo_run (repl : List Char) {d0 : Char} (t : List Char)
    (hd0 : isAsciiDigit d0 = true) :
    replaceDigitRunsGo repl false (d0 :: t) =
      repl ++ replaceDigitRunsGo repl true t := by
  simp [replaceDigitRunsGo, hd0]

theorem rdrGo_nondigit (repl : List Char) {c : Char} (t : List Char)
    (hc : isAsciiDigit c = false) :
    replaceDigitRunsGo repl false (c :: t) =
      c :: replaceDigitRunsGo repl false t := by
  simp [replaceDigitRunsGo, hc]

theorem rdrGo_true_to_false (repl : List Char) {v : List Char}
    (hv : ∀ c, v.head? = some c → isAsciiDigit c = false) :
    replaceDigitRunsGo repl true v = replaceDigitRunsGo repl false v := by
  cases v with
  | nil => rfl
  | cons a t =>
    simp only [replaceDigitRunsGo, hv a rfl, Bool.false_eq_true, if_false]

theorem rdrGo_id (repl : List Char) {u : List Char}
    (hu : ∀ c ∈ u, isAsciiDigit c = false) :
    replaceDigitRunsGo repl false u = u := by
  have h := rdrGo_copy repl [] hu
  simpa [replaceDigitRunsGo] using h

/-- `QString::replace(QRegExp("\\d+"), repl)` on a well-formed numbered-list
marker rewrites exactly the digit run. -/
theorem replaceDigitRuns_marker {ws1 ds ws2 : List Char} {p : Char}
    (repl : List Char)
    (hws1 : ∀ c ∈ ws1, isQtSpace c = true) (hdsne : ds ≠ [])
    (hds : ∀ c ∈ ds, isAsciiDigit c = true) (hp : p = '.' ∨ p = ')')
    (hws2 : ∀ c ∈ ws2, isQtSpace c = true) :
    replaceDigitRuns repl (ws1 ++ ds ++ p :: ws2) =
      ws1 ++ repl ++ p :: ws2 := by
  have hpd : isAsciiDigit p = false := by
    rcases hp with h | h <;> rw [h] <;> decide
  cases ds with
  | nil => exact absurd rfl hdsne
  | cons d0 ds1 =>
    unfold replaceDigitRuns
    simp only [List.append_assoc, List.cons_append]
    rw [rdrGo_copy repl _ (fun c hc => not_digit_of_space (hws1 c hc)),
      rdrGo_run repl _ (hds d0 (by simp)),
      rdrGo_true_skip repl _ (fun c hc => hds c (by simp [hc])),
      rdrGo_true_to_false repl (fun c hc => by
        rw [List.head?_cons, Option.some.injEq] at hc
        rw [← hc]
        exact hpd),
      rdrGo_nondigit repl _ hpd,
      rdrGo_id repl (fun c hc => not_digit_of_space (hws2 c hc))]

/-- C4 (amended): for a numbered-list line with content after the marker and
a captured value of at most 2^31 - 2, Enter at end of line inserts a new line
that carries the same marker with the number incremented; captured values out
of `int` range instead convert to 0 (Qt `toInt`) and yield the number 1
(refuting the unrestricted claim — see the counterexample below). -/
theorem numbered_increment_in_range (s : EditorState)
    (ws1 ds ws2 rest : List Char) (p : Char)
    (hsel : hasSelection s = false)
    (hsp : numberedSplit (currentLine s) = some (ws1, ds, p, ws2, rest))
    (hrest : rest ≠ [])
    (hcol : s.col = (currentLine s).length)
    (hrange : digitsToNat ds ≤ 2147483646) :
    pressReturn s =
      { s with
        lines := s.lines.take s.row ++
          [currentLine s,
            ws1 ++ natToChars (digitsToNat ds + 1) ++ p :: ws2] ++
          s.lines.drop (s.row + 1),
        row := s.row + 1,
        col := (ws1 ++ natToChars (digitsToNat ds + 1) ++ p :: ws2).length,
        anchorRow := s.row + 1,
        anchorCol := (ws1 ++ natToChars (digitsToNat ds + 1) ++ p :: ws2).length } := by
  obtain ⟨hl, hws1, hdsne, hds, hp, hws2ne, hws2, _⟩ := numberedSplit_shape hsp
  have huser : userState (currentLine s) = MarkdownState.numberedList :=
    userState_numbered (by rw [numberedMatch, hsp]; rfl)
  have hlen : (currentLine s).length ≠ (ws1 ++ ds ++ p :: ws2).length := by
    rw [hl]
    simp only [List.length_append, List.length_cons]
    have : 0 < rest.length := List.length_pos.mpr hrest
    omega
  have hto : qtToInt ds = digitsToNat ds := by
    unfold qtToInt
    rw [if_pos (by omega)]
  have hdec : continuationDecision (currentLine s) =
      (ws1 ++ natToChars (digitsToNat ds + 1) ++ p :: ws2, false) := by
    unfold continuationDecision
    rw [huser, hsp]
    simp only [hlen, if_false]
    rw [hto, replaceDigitRuns_marker _ hws1 hdsne hds hp hws2]
  unfold pressReturn
  rw [hsel]
  simp only [Bool.false_eq_true, if_false]
  unfold handleCarriageReturn
  rw [hcol]
  simp [hdec]

/-- Witness for C4 at the line `"2. foo"`: Enter inserts `"3. "`. -/
theorem numbered_increment_in_range_witness :
    pressReturn (mkState [strL "2. foo"] 0 6) =
      { mkState [strL "2. foo"] 0 6 with
        lines := [strL "2. foo", strL "3. "], row := 1, col := 3,
        anchorRow := 1, anchorCol := 3 } := by
  have h := numbered_increment_in_range (mkState [strL "2. foo"] 0 6)
    [] (strL "2") (strL " ") (strL "foo") '.' (by decide) (by decide)
    (by decide) (by decide) (by decide)
  exact h.trans (by decide)

/-- Counterexample to C4 as stated: for the numbered line
`"2147483648. foo"` (captured value 2^31, out of `int` range), Enter inserts
the prefix `"1. "`, not `"2147483649. "`. -/
theorem numbered_increment_overflow_counterexample :
    (pressReturn (mkState [strL "2147483648. foo"] 0 15)).lines =
      [strL "2147483648. foo", strL "1. "] ∧
    strL "1. " ≠ strL "2147483649. " := by
  exact ⟨by decide, by decide⟩

/-! ### C2 -/

theorem backspace_exact_core (cfg : EditorConfig) (s : EditorState) {i : Nat}
    (hsel : hasSelection s = false)
    (hcl : backspaceClassification s ≠ MarkdownState.plain)
    (hbt : backspaceBacktrackIndex (currentLine s) = some i) :
    handleBackspaceKey cfg s =
      (true,
        { s with
          lines := s.lines.set s.row ((currentLine s).take i),
          col := min s.col i, anchorRow := s.row, anchorCol := min s.col i }) := by
  unfold handleBackspaceKey
  rw [hsel]
  simp only [Bool.false_eq_true, if_false]
  cases hu : backspaceClassification s with
  | plain => exact absurd hu hcl
  | numberedList => rw [hbt]
  | bulletPointList => rw [hbt]
  | blockquote => rw [hbt]

/-- C2 (amended): smart Backspace removes a whole marker only for a line that
is exactly a numbered/bullet/task marker (an empty item): there, regardless
of cursor position, the text from the marker through end of line is deleted
in one step, leaving only the leading whitespace. For a list-classified line
with content after the marker the handler declines and the caller deletes a
single character (refuting the unrestricted claim — see the counterexample
on `"- [x] done"`). -/
theorem smart_backspace_exact_marker_only (cfg : EditorConfig)
    (s : EditorState) (hsel : hasSelection s = false) :
    ((numberedExact (currentLine s) = true ∨
        bulletExact (currentLine s) = true ∨
        taskExact (currentLine s) = true) →
      (handleBackspaceKey cfg s).1 = true ∧
      currentLine (handleBackspaceKey cfg s).2 =
        priorIndentationOf (currentLine s)) ∧
    (backspaceClassification s = MarkdownState.bulletPointList →
      bulletExact (currentLine s) = false →
      taskExact (currentLine s) = false →
      handleBackspaceKey cfg s = (false, s)) := by
  constructor
  · intro hex
    have key : ∃ ws1 : List Char, ∃ c0 : Char, ∃ tail : List Char,
        currentLine s = ws1 ++ c0 :: tail ∧
        (∀ c ∈ ws1, isQtSpace c = true) ∧ isQtSpace c0 = false ∧
        backspaceClassification s ≠ MarkdownState.plain ∧
        backspaceBacktrackIndex (currentLine s) = some ws1.length := by
      rcases hex with hnum | hbul | htask
      · obtain ⟨ws1, ds, p, ws2, hsp⟩ := numberedExact_some hnum
        obtain ⟨hl, hws1, hdsne, hds, _, _, _, _⟩ := numberedSplit_shape hsp
        rw [List.append_nil] at hl
        simp only [List.append_assoc] at hl
        cases ds with
        | nil => exact absurd rfl hdsne
        | cons d0 ds1 =>
          simp only [List.cons_append] at hl
          have hd0 := hds d0 (by simp)
          have huser := @userState_numbered
            (currentLine s) (by rw [numberedMatch, hsp]; rfl)
          refine ⟨ws1, d0, ds1 ++ (p :: ws2), hl, hws1,
            not_space_of_digit hd0, ?_, ?_⟩
          · rw [backspaceClassification, huser]
            simp
          · rw [backspaceBacktrackIndex, huser, if_pos hnum, hl]
            exact firstIdxWhere_append _
              (fun c hc => not_digit_of_space (hws1 c hc)) hd0
      · obtain ⟨ws1, m, ws2, hsp⟩ := bulletExact_some hbul
        obtain ⟨hl, hws1, hm, _, _, _⟩ := bulletSplit_shape hsp
        rw [List.append_nil] at hl
        have huser := userState_bullet hsp
        refine ⟨ws1, m, ws2, hl, hws1, not_space_of_bullet hm, ?_, ?_⟩
        · rw [backspaceClassification, huser]
          simp
        · simp only [backspaceBacktrackIndex, huser, hbul, Bool.true_or,
            if_true]
          rw [hl]
          exact firstIdxWhere_append _
            (fun c hc => not_bullet_of_space (hws1 c hc)) hm
      · obtain ⟨ws1, chk, ws2, hsp⟩ := taskExact_some htask
        obtain ⟨hl, hws1, _, _, _, _⟩ := taskSplit_shape hsp
        rw [List.append_nil] at hl
        have huser := userState_task hsp
        refine ⟨ws1, '-', ' ' :: '[' :: chk :: ']' :: ws2, hl, hws1,
          by decide, ?_, ?_⟩
        · rw [backspaceClassification, huser]
          simp
        · simp only [backspaceBacktrackIndex, huser, htask, Bool.or_true,
            if_true]
          rw [hl]
          exact firstIdxWhere_append _
            (fun c hc => not_bullet_of_space (hws1 c hc)) (by decide)
    obtain ⟨ws1, c0, tail, hl, hws1, hc0, hcl, hbt⟩ := key
    have hres := backspace_exact_core cfg s hsel hcl hbt
    have hne : currentLine s ≠ [] := by
      rw [hl]
      simp
    have hrow := row_lt_of_ne_nil hne
    constructor
    · rw [hres]
    · rw [hres]
      have htake : (currentLine s).take ws1.length = ws1 := by
        rw [hl]
        exact List.take_left ws1 (c0 :: tail)
      have hprior : priorIndentationOf (currentLine s) = ws1 := by
        rw [priorIndentationOf, hl]
        exact takeWhile_space_of_shape _ hws1 hc0
      show (s.lines.set s.row ((currentLine s).take ws1.length)).getD s.row [] =
        priorIndentationOf (currentLine s)
      rw [getD_set_self _ _ _ hrow, htake, hprior]
  · intro hcl hbul htask
    unfold handleBackspaceKey
    rw [hsel]
    simp only [Bool.false_eq_true, if_false]
    rw [hcl]
    have hbt : backspaceBacktrackIndex (currentLine s) = none := by
      rw [backspaceBacktrackIndex, backspaceClassification] at *
      rw [hcl, hbul, htask]
      simp
    rw [hbt]

/-- Witness for C2 (amended): on the empty task item `"  - [ ] "` one
Backspace collapses the whole marker, leaving the leading whitespace; on the
content-bearing bullet line `"* x"` the handler declines. -/
theorem smart_backspace_exact_marker_only_witness :
    (handleBackspaceKey cfgStd (mkState [strL "  - [ ] "] 0 8)).1 = true ∧
    currentLine (handleBackspaceKey cfgStd (mkState [strL "  - [ ] "] 0 8)).2 =
      strL "  " ∧
    handleBackspaceKey cfgStd { mkState [strL "* x"] 0 3 with col := 3 } =
      (false, { mkState [strL "* x"] 0 3 with col := 3 }) := by
  have h1 := (smart_backspace_exact_marker_only cfgStd
    (mkState [strL "  - [ ] "] 0 8) (by decide)).1 (by right; right; decide)
  have h2 := (smart_backspace_exact_marker_only cfgStd
    { mkState [strL "* x"] 0 3 with col := 3 } (by decide)).2
    (by decide) (by decide) (by decide)
  exact ⟨h1.1, h1.2.trans (by decide), h2⟩

/-- Counterexample to C2 as stated: for the line `"- [x] done"` with the
cursor at end of line and no selection, the backspace handler does not treat
the marker at all (the exact-match tests fail on a line with content), so the
default single-character deletion runs and leaves `"- [x] don"`, not
`"done"`. -/
theorem task_content_backspace_counterexample :
    (handleBackspaceKey cfgStd (mkState [strL "- [x] done"] 0 10)).1 = false ∧
    (pressBackspace cfgStd (mkState [strL "- [x] done"] 0 10)).lines =
      [strL "- [x] don"] ∧
    strL "- [x] don" ≠ strL "done" := by
  exact ⟨by decide, by decide, by decide⟩

/-! ### C9 -/

/-- Counterexample to C9 as stated: with the plain line `"ab"`, no selection,
auto-matching enabled and the (valid) cursor at end of line, the pair-collapse
branch is reached with column 2, but the line has length 2, so the
`blockText[positionInBlock()]` read is out of bounds. -/
theorem pair_collapse_read_out_of_bounds_counterexample :
    pairCollapseReached cfgStd (mkState [strL "ab"] 0 2) = true ∧
    (mkState [strL "ab"] 0 2).col ≤
      (currentLine (mkState [strL "ab"] 0 2)).length ∧
    ¬ (mkState [strL "ab"] 0 2).col <
      (currentLine (mkState [strL "ab"] 0 2)).length := by
  exact ⟨by decide, by decide, by decide⟩

/-- C9 (amended): whenever the pair-collapse branch of backspace handling is
reached with a valid cursor, the current-column read is in bounds exactly
when the cursor is strictly before end of line; at end of line the read is
out of bounds and Qt's out-of-range `QString` read yields the null character
fed into the pair comparison, while the branch still executes its
`markupPairs[previousChar]` lookup. -/
theorem pair_collapse_read_bounds (cfg : EditorConfig) (s : EditorState)
    (hr : pairCollapseReached cfg s = true)
    (hval : s.col ≤ (currentLine s).length) :
    (s.col < (currentLine s).length ↔ s.col ≠ (currentLine s).length) ∧
    (s.col = (currentLine s).length →
      (currentLine s).getD s.col nulChar = nulChar) ∧
    (handleBackspaceKey cfg s).2.markupPairs =
      (qmapBracket s.markupPairs
        ((currentLine s).getD (s.col - 1) nulChar)).2 := by
  simp only [pairCollapseReached, Bool.and_eq_true, Bool.not_eq_true',
    decide_eq_true_iff] at hr
  obtain ⟨⟨⟨hsel, hplain⟩, ham⟩, hcol⟩ := hr
  refine ⟨by omega, ?_, ?_⟩
  · intro h
    simp [List.getD, List.getElem?_eq_none (Nat.le_of_eq h.symm)]
  · unfold handleBackspaceKey
    rw [hsel]
    simp only [Bool.false_eq_true, if_false, hplain]
    rw [ham]
    simp only [decide_eq_true_iff, hcol, decide_True, Bool.and_self, if_true]
    split
    · split
      · rfl
      · split
        · rfl
        · rfl
    · rfl

/-- Witness for C9 (amended) at the counterexample state. -/
theorem pair_collapse_read_bounds_witness :
    ((mkState [strL "ab"] 0 2).col <
        (currentLine (mkState [strL "ab"] 0 2)).length ↔
      (mkState [strL "ab"] 0 2).col ≠
        (currentLine (mkState [strL "ab"] 0 2)).length) ∧
    (currentLine (mkState [strL "ab"] 0 2)).getD 2 nulChar = nulChar := by
  have h := pair_collapse_read_bounds cfgStd (mkState [strL "ab"] 0 2)
    (by decide) (by decide)
  exact ⟨h.1, h.2.1 (by decide)⟩

/-! ### C8 -/

theorem qmapFind_put_ne (m : List (Char × Char)) (k v x : Char) (h : x ≠ k) :
    qmapFind (qmapPut m k v) x = qmapFind m x := by
  have hk : (k = x) = False := eq_false (fun e => h e.symm)
  induction m with
  | nil => simp [qmapPut, qmapFind, hk]
  | cons a t ih =>
    obtain ⟨a1, a2⟩ := a
    unfold qmapPut
    by_cases h1 : k < a1
    · simp only [if_pos h1, qmapFind, hk, if_false]
    · by_cases h2 : k = a1
      · subst h2
        simp only [if_neg h1, if_pos rfl, qmapFind, hk, if_false]
      · simp only [if_neg h1, if_neg h2, qmapFind]
        by_cases h3 : a1 = x
        · simp [h3]
        · simp [h3, ih]

theorem mem_qmapPut {m : List (Char × Char)} {k v : Char} {p : Char × Char}
    (h : p ∈ qmapPut m k v) : p ∈ m ∨ p = (k, v) := by
  induction m with
  | nil =>
    simp [qmapPut] at h
    right
    simp [h]
  | cons a t ih =>
    obtain ⟨a1, a2⟩ := a
    unfold qmapPut at h
    by_cases h1 : k < a1
    · simp only [if_pos h1, List.mem_cons] at h
      rcases h with h | h | h
      · right; simp [h]
      · left; simp [h]
      · left; simp [h]
    · by_cases h2 : k = a1
      · simp only [if_neg h1, if_pos h2, List.mem_cons] at h
        rcases h with h | h
        · right; simp [h]
        · left; simp [h]
      · simp only [if_neg h1, if_neg h2, List.mem_cons] at h
        rcases h with h | h
        · left; simp [h]
        · rcases ih h with h3 | h3
          · left; simp [h3]
          · right; exact h3

theorem markupPairsFixed_bracket {m : List (Char × Char)} (k : Char)
    (h : markupPairsFixed m) : markupPairsFixed (qmapBracket m k).2 := by
  unfold qmapBracket
  cases hf : qmapFind m k with
  | some v => exact h
  | none =>
    constructor
    · intro p hp
      have hne : p.1 ≠ k := by
        intro he
        have hinit := h.1 p hp
        rw [he, hf] at hinit
        cases hinit
      rw [qmapFind_put_ne m k nulChar p.1 hne]
      exact h.1 p hp
    · intro p hp
      rcases mem_qmapPut hp with hin | hkv
      · exact h.2 p hin
      · right
        rw [hkv]

theorem mp_deleteSelection (s : EditorState) :
    (deleteSelection s).markupPairs = s.markupPairs := by
  unfold deleteSelection
  dsimp only
  split <;> rfl

theorem mp_defaultBackspace (s : EditorState) :
    (defaultBackspace s).markupPairs = s.markupPairs := by
  unfold defaultBackspace
  dsimp only
  repeat' split
  · exact mp_deleteSelection s
  all_goals rfl

theorem mp_defaultDelete (s : EditorState) :
    (defaultDelete s).markupPairs = s.markupPairs := by
  unfold defaultDelete
  dsimp only
  repeat' split
  · exact mp_deleteSelection s
  all_goals rfl

theorem mp_defaultTypeChar (s : EditorState) (ch : Char) :
    (defaultTypeChar s ch).markupPairs = s.markupPairs := by
  unfold defaultTypeChar
  dsimp only
  split
  · exact mp_deleteSelection s
  · rfl

theorem mp_defaultReturn (s : EditorState) :
    (defaultReturn s).markupPairs = s.markupPairs := by
  unfold defaultReturn
  dsimp only
  split
  · exact mp_deleteSelection s
  · rfl

theorem mp_handleCarriageReturn (s : EditorState) :
    (handleCarriageReturn s).markupPairs = s.markupPairs := by
  unfold handleCarriageReturn
  dsimp only
  repeat' split
  all_goals rfl

theorem mp_pressReturn (s : EditorState) :
    (pressReturn s).markupPairs = s.markupPairs := by
  unfold pressReturn
  split
  · exact mp_defaultReturn s
  · exact mp_handleCarriageReturn s

theorem mp_indentText (cfg : EditorConfig) (s : EditorState) :
    (indentText cfg s).markupPairs = s.markupPairs := by
  unfold indentText
  dsimp only
  repeat' split
  all_goals rfl

theorem mp_unindentText (cfg : EditorConfig) (s : EditorState) :
    (unindentText cfg s).markupPairs = s.markupPairs := by
  unfold unindentText
  dsimp only
  repeat' split
  all_goals rfl

theorem mp_insertPaired {cfg : EditorConfig} {s s1 : EditorState} {ch : Char}
    (h : insertPairedCharacters cfg s ch = some s1) :
    s1.markupPairs = s.markupPairs := by
  unfold insertPairedCharacters at h
  dsimp only at h
  repeat' split at h
  all_goals try cases h
  all_goals rfl

theorem mp_handleEndPair {cfg : EditorConfig} {s s1 : EditorState} {ch : Char}
    (h : handleEndPairCharacterTyped cfg s ch = some s1) :
    s1.markupPairs = s.markupPairs := by
  unfold handleEndPairCharacterTyped at h
  dsimp only at h
  repeat' split at h
  all_goals try cases h
  all_goals rfl

theorem mp_typeCharacter (cfg : EditorConfig) (s : EditorState) (ch : Char) :
    (typeCharacter cfg s ch).markupPairs = s.markupPairs := by
  unfold typeCharacter
  split
  next s1 heq => exact mp_handleEndPair heq
  next =>
    split
    next s1 heq => exact mp_insertPaired heq
    next => exact mp_defaultTypeChar s ch

theorem markupPairsFixed_handleBackspace (cfg : EditorConfig)
    (s : EditorState) (h : markupPairsFixed s.markupPairs) :
    markupPairsFixed (handleBackspaceKey cfg s).2.markupPairs := by
  unfold handleBackspaceKey
  dsimp only
  repeat' split
  all_goals first
    | exact h
    | exact markupPairsFixed_bracket _ h

theorem markupPairsFixed_pressBackspace (cfg : EditorConfig)
    (s : EditorState) (h : markupPairsFixed s.markupPairs) :
    markupPairsFixed (pressBackspace cfg s).markupPairs := by
  unfold pressBackspace
  dsimp only
  split
  · exact h
  · split
    · exact markupPairsFixed_handleBackspace cfg s h
    · rw [mp_defaultBackspace]
      exact markupPairsFixed_handleBackspace cfg s h

theorem markupPairsFixed_applyOp (cfg : EditorConfig) (s : EditorState)
    (op : EditOp) (h : markupPairsFixed s.markupPairs) :
    markupPairsFixed (applyOp cfg s op).markupPairs := by
  cases op with
  | keyReturn => simp only [applyOp]; rw [mp_pressReturn]; exact h
  | keyBackspace =>
    simp only [applyOp]
    exact markupPairsFixed_pressBackspace cfg s h
  | keyDelete =>
    simp only [applyOp]
    unfold pressDelete
    split
    · exact h
    · rw [mp_defaultDelete]; exact h
  | keyTab => simp only [applyOp]; rw [mp_indentText]; exact h
  | keyBacktab => simp only [applyOp]; rw [mp_unindentText]; exact h
  | keyChar c => simp only [applyOp]; rw [mp_typeCharacter]; exact h
  | setAutoMatch c b => simp only [applyOp]; exact h

theorem markupPairsFixed_applyOps (cfg : EditorConfig) (ops : List EditOp)
    (s : EditorState) (h : markupPairsFixed s.markupPairs) :
    markupPairsFixed (applyOps cfg ops s).markupPairs := by
  induction ops generalizing s with
  | nil => exact h
  | cons op t ih =>
    simp only [applyOps, List.foldl_cons]
    exact ih (applyOp cfg s op) (markupPairsFixed_applyOp cfg s op h)

/-- C8 (amended): the nine pairs registered at construction are never changed
or removed by any sequence of editing operations, and only null-valued
default entries can ever be added (by the backspace pair-collapse lookup's
non-const `QMap::operator[]`); the per-opener auto-match flags are the only
other mutable part. The unrestricted claim that the mapping always contains
exactly the nine pairs is refuted by the counterexample below. -/
theorem markup_pairs_table_invariant (cfg : EditorConfig) (ops : List EditOp)
    (s : EditorState) (h : markupPairsFixed s.markupPairs) :
    markupPairsFixed (applyOps cfg ops s).markupPairs ∧
    markupPairsFixed initMarkupPairs :=
  ⟨markupPairsFixed_applyOps cfg ops s h, by decide⟩

/-- Witness for C8 (amended): one Backspace on the plain line `"ab"` (which
pollutes the table with a null-valued entry) still preserves the invariant. -/
theorem markup_pairs_table_invariant_witness :
    markupPairsFixed
      (applyOps cfgStd [EditOp.keyBackspace]
        (mkState [strL "ab"] 0 2)).markupPairs :=
  (markup_pairs_table_invariant cfgStd [EditOp.keyBackspace]
    (mkState [strL "ab"] 0 2) (by decide)).1

/-- Counterexample to C8 as stated: backspacing on the plain line `"ab"`
with the cursor after `'a'` makes `markupPairs[previousChar]` insert a
default entry for `'a'`: the table then has ten entries, not the nine
registered at construction. -/
theorem markup_pairs_mutated_by_backspace_counterexample :
    (pressBackspace cfgStd (mkState [strL "ab"] 0 1)).markupPairs ≠
      initMarkupPairs ∧
    (pressBackspace cfgStd (mkState [strL "ab"] 0 1)).markupPairs.length = 10 ∧
    initMarkupPairs.length = 9 := by
  exact ⟨by decide, by decide, by decide⟩

/-! ### C5 -/

theorem ne_of_space_nonspace {c d : Char} (hc : isQtSpace c = true)
    (hd : isQtSpace d = false) : c ≠ d := by
  intro e
  rw [e] at hc
  rw [hc] at hd
  cases hd

theorem map_replace_id {l : List Char} {old new : Char}
    (h : ∀ c ∈ l, c ≠ old) :
    l.map (fun c => if c = old then new else c) = l := by
  induction l with
  | nil => rfl
  | cons a t ih =>
    simp only [List.map_cons, if_neg (h a (by simp))]
    rw [ih (fun c hc => h c (by simp [hc]))]

theorem replaceAllChar_shape {ws1 ws2 : List Char} {old new : Char}
    (h1 : ∀ c ∈ ws1, c ≠ old) (h2 : ∀ c ∈ ws2, c ≠ old) :
    replaceAllChar old new (ws1 ++ old :: ws2) = ws1 ++ new :: ws2 := by
  unfold replaceAllChar
  rw [List.map_append, List.map_cons, map_replace_id h1, map_replace_id h2,
    if_pos rfl]

theorem indentUnit_space (cfg : EditorConfig) :
    ∀ c ∈ indentUnit cfg, isQtSpace c = true := by
  intro c hc
  unfold indentUnit at hc
  split at hc
  · rw [List.eq_of_mem_replicate hc]
    decide
  · simp at hc
    rw [hc]
    decide

theorem mapLineRange_single (f : List Char → List Char) :
    ∀ (r : Nat) (lines : List (List Char)), r < lines.length →
      mapLineRange f r r lines = lines.set r (f (lines.getD r [])) := by
  intro r
  induction r with
  | zero =>
    intro lines h
    cases lines with
    | nil => simp at h
    | cons l t => simp [mapLineRange, List.getD]
  | succ n ih =>
    intro lines h
    cases lines with
    | nil => simp at h
    | cons l t =>
      simp only [mapLineRange, List.set, List.getD_cons_succ]
      rw [ih t (by simpa using h)]

theorem takeWhile_sp_replicate (n : Nat) (X : List Char) :
    n ≤ ((List.replicate n ' ' ++ X).takeWhile (fun c => decide (c = ' '))).length := by
  induction n with
  | zero => simp
  | succ k ih =>
    simp only [List.replicate, List.cons_append, List.takeWhile_cons,
      decide_True, List.length_cons]
    exact Nat.succ_le_succ ih

theorem unindentLine_unit (cfg : EditorConfig) (X : List Char)
    (htw : 0 < cfg.tabWidth) :
    (unindentLine cfg.tabWidth (indentUnit cfg ++ X)).1 = X := by
  unfold indentUnit
  cases hins : cfg.insertSpacesForTabs with
  | false =>
    simp only [Bool.false_eq_true, if_false]
    rfl
  | true =>
    simp only [if_true]
    unfold unindentLine
    split
    next rest heq =>
      exfalso
      cases htw0 : cfg.tabWidth with
      | zero => omega
      | succ n =>
        rw [htw0] at heq
        simp [List.replicate] at heq
    next =>
      dsimp only
      have h1 : cfg.tabWidth ≤ ((List.replicate cfg.tabWidth ' ' ++
          X).takeWhile (fun c => decide (c = ' '))).length :=
        takeWhile_sp_replicate _ X
      have hmin : min cfg.tabWidth ((List.replicate cfg.tabWidth ' ' ++
          X).takeWhile (fun c => decide (c = ' '))).length = cfg.tabWidth := by
        omega
      rw [hmin, List.drop_left' (by simp)]

/-- C5 (amended): bullet-marker cycling applies only to lines that are
exactly a bullet marker with whitespace (the `exactMatch` guard): for an
empty bullet item with marker `*`, cycling enabled and no selection,
indenting rewrites the marker to `-` (under the inserted indent unit), and
outdenting the result restores the original line exactly; lines with content
after the marker are left uncycled (see the counterexample). -/
theorem bullet_cycle_round_trip_empty_item (cfg : EditorConfig)
    (s : EditorState) (ws1 ws2 : List Char)
    (hsel : hasSelection s = false)
    (hsp : bulletSplit (currentLine s) = some (ws1, '*', ws2, []))
    (hcyc : cfg.bulletPointCyclingEnabled = true)
    (htw : 0 < cfg.tabWidth) :
    currentLine (indentText cfg s) = indentUnit cfg ++ (ws1 ++ '-' :: ws2) ∧
    bulletSplit (currentLine (indentText cfg s)) =
      some (indentUnit cfg ++ ws1, '-', ws2, []) ∧
    (unindentText cfg (indentText cfg s)).lines = s.lines ∧
    currentLine (unindentText cfg (indentText cfg s)) = currentLine s := by
  obtain ⟨hl, hws1, _, hws2ne, hws2, _⟩ := bulletSplit_shape hsp
  rw [List.append_nil] at hl
  have hrow : s.row < s.lines.length := row_lt_of_ne_nil (by rw [hl]; simp)
  have hclass : indentClassification s = MarkdownState.bulletPointList :=
    userState_bullet hsp
  have hexact : bulletExact (currentLine s) = true := by
    unfold bulletExact
    rw [hsp]
    rfl
  have hdrop : (currentLine s).dropWhile isQtSpace = '*' :: ws2 := by
    rw [hl]
    exact dropWhile_space_of_shape _ hws1 (by decide)
  have hrepl : replaceAllChar '*' '-' (currentLine s) = ws1 ++ '-' :: ws2 := by
    rw [hl]
    exact replaceAllChar_shape
      (fun c hc => ne_of_space_nonspace (hws1 c hc) (by decide))
      (fun c hc => ne_of_space_nonspace (hws2 c hc) (by decide))
  have hInd : indentText cfg s =
      { s with
        lines := s.lines.set s.row (indentUnit cfg ++ (ws1 ++ '-' :: ws2)),
        col := (indentUnit cfg ++ (ws1 ++ '-' :: ws2)).length,
        anchorRow := s.row,
        anchorCol := (indentUnit cfg ++ (ws1 ++ '-' :: ws2)).length } := by
    unfold indentText
    rw [hsel]
    dsimp only
    simp only [Bool.false_eq_true, if_false, hclass, hexact, hcyc, if_true,
      hdrop, List.headD_cons, cycleIndentMarker, if_pos rfl, hrepl]
    rfl
  have hbuild1 : bulletSplit (indentUnit cfg ++ (ws1 ++ '-' :: ws2)) =
      some (indentUnit cfg ++ ws1, '-', ws2, []) := by
    have h : bulletSplit ((indentUnit cfg ++ ws1) ++ '-' :: ws2 ++ []) =
        some (indentUnit cfg ++ ws1, '-', ws2, []) :=
      bulletSplit_build
        (fun c hc => by
          rcases List.mem_append.mp hc with h1 | h1
          · exact indentUnit_space cfg c h1
          · exact hws1 c h1)
        (by decide) hws2ne hws2 (fun c hc => by cases hc)
    simpa [List.append_assoc] using h
  have hlen1 : s.row <
      (s.lines.set s.row (indentUnit cfg ++ (ws1 ++ '-' :: ws2))).length := by
    rw [List.length_set]
    exact hrow
  have hcur1 : currentLine (indentText cfg s) =
      indentUnit cfg ++ (ws1 ++ '-' :: ws2) := by
    rw [hInd]
    exact getD_set_self _ _ _ hrow
  have hbuild2 : bulletSplit (ws1 ++ '-' :: ws2) = some (ws1, '-', ws2, []) := by
    have h : bulletSplit (ws1 ++ '-' :: ws2 ++ []) = some (ws1, '-', ws2, []) :=
      bulletSplit_build hws1 (by decide) hws2ne hws2 (fun c hc => by cases hc)
    simpa using h
  have husr2 : userState (ws1 ++ '-' :: ws2) = MarkdownState.bulletPointList :=
    userState_bullet hbuild2
  have hex2 : bulletExact (ws1 ++ '-' :: ws2) = true := by
    unfold bulletExact
    rw [hbuild2]
    rfl
  have hdrop2 : (ws1 ++ '-' :: ws2).dropWhile isQtSpace = '-' :: ws2 :=
    dropWhile_space_of_shape _ hws1 (by decide)
  have hrepl2 : replaceAllChar '-' '*' (ws1 ++ '-' :: ws2) =
      ws1 ++ '*' :: ws2 :=
    replaceAllChar_shape
      (fun c hc => ne_of_space_nonspace (hws1 c hc) (by decide))
      (fun c hc => ne_of_space_nonspace (hws2 c hc) (by decide))
  have hset : s.lines.set s.row (ws1 ++ '*' :: ws2) = s.lines := by
    have h0 := set_getD_self s.lines s.row hrow
    rw [show s.lines.getD s.row [] = ws1 ++ '*' :: ws2 from hl] at h0
    exact h0
  have hUn : unindentText cfg
      { s with
        lines := s.lines.set s.row (indentUnit cfg ++ (ws1 ++ '-' :: ws2)),
        col := (indentUnit cfg ++ (ws1 ++ '-' :: ws2)).length,
        anchorRow := s.row,
        anchorCol := (indentUnit cfg ++ (ws1 ++ '-' :: ws2)).length } =
      { s with
        lines := s.lines,
        col := (ws1 ++ '*' :: ws2).length,
        anchorRow := s.row,
        anchorCol := (ws1 ++ '*' :: ws2).length } := by
    unfold unindentText
    dsimp only
    simp only [hasSelection, beq_self_eq_true, Bool.and_self, Bool.not_true,
      Bool.false_eq_true, if_false]
    rw [mapLineRange_single _ s.row _ hlen1]
    rw [getD_set_self _ _ _ hrow, unindentLine_unit cfg _ htw, List.set_set,
      getD_set_self _ _ _ hrow]
    simp only [husr2, hex2, hcyc, decide_True, Bool.and_self, if_true,
      hdrop2, List.headD_cons, cycleOutdentMarker]
    rw [if_neg (show ¬ ('-' : Char) = '*' by decide)]
    simp only [if_pos rfl, hrepl2, List.set_set, hset]
  refine ⟨hcur1, by rw [hcur1]; exact hbuild1, ?_, ?_⟩
  all_goals rw [hInd, hUn]
  all_goals rfl

/-- Witness for C5 (amended) on the empty bullet item `"* "` with the
default configuration (tab indent, width 4). -/
theorem bullet_cycle_round_trip_empty_item_witness :
    currentLine (indentText cfgStd (mkState [strL "* "] 0 0)) =
      strL "\t- " ∧
    (unindentText cfgStd (indentText cfgStd (mkState [strL "* "] 0 0))).lines =
      [strL "* "] ∧
    currentLine (unindentText cfgStd (indentText cfgStd
      (mkState [strL "* "] 0 0))) = strL "* " := by
  have h := bullet_cycle_round_trip_empty_item cfgStd (mkState [strL "* "] 0 0)
    [] [' '] (by decide) (by decide) (by decide) (by decide)
  exact ⟨h.1.trans (by decide), h.2.2.1.trans (by decide),
    h.2.2.2.trans (by decide)⟩

/-- Counterexample to C5 as stated: `"* x"` is a bullet-list line (it matches
`bulletListRegex` and is classified as a bullet item), yet with cycling
enabled and no selection, indenting leaves the marker `*` unchanged because
the whole line is not an exact match of the bullet pattern. -/
theorem bullet_cycling_content_line_counterexample :
    bulletSplit (strL "* x") = some ([], '*', [' '], ['x']) ∧
    userState (strL "* x") = MarkdownState.bulletPointList ∧
    (indentText cfgStd (mkState [strL "* x"] 0 0)).lines = [strL "\t* x"] ∧
    strL "\t* x" ≠ strL "\t- x" := by
  exact ⟨by decide, by decide, by decide, by decide⟩

/-! ### C7 -/

theorem selPos_same_row {s : EditorState} (h : s.anchorRow = s.row) :
    selStartPos s = (s.row, min s.anchorCol s.col) ∧
    selEndPos s = (s.row, max s.anchorCol s.col) := by
  unfold selStartPos selEndPos lexLe
  rw [h]
  by_cases hc : s.anchorCol ≤ s.col
  · simp [hc, Nat.min_eq_left hc, Nat.max_eq_right hc]
  · have hlt : s.col ≤ s.anchorCol := Nat.le_of_lt (Nat.lt_of_not_le hc)
    simp [hc, Nat.min_eq_right hlt, Nat.max_eq_left hlt]

theorem slice_after_wrap (A : List Char) (a b : Nat) (ch cl : Char)
    (hab : a ≤ b) (hbl : b ≤ A.length) :
    ((A.take a ++ ch :: ((A.take b).drop a ++ cl :: A.drop b)).take
        (b + 1)).drop (a + 1) =
      (A.take b).drop a := by
  have hta : (A.take a).length = a := List.length_take_of_le (le_trans hab hbl)
  have hslice : ((A.take b).drop a).length = b - a := by
    rw [List.length_drop, List.length_take_of_le hbl]
  have h1 : (A.take a ++ ch :: ((A.take b).drop a ++ cl :: A.drop b)).take
      (b + 1) = A.take a ++ ch :: (A.take b).drop a := by
    rw [List.take_append_eq_append_take, hta,
      List.take_of_length_le (by rw [hta]; omega)]
    congr 1
    have hba : b + 1 - a = (b - a) + 1 := by omega
    rw [hba, List.take_succ_cons, List.take_left' hslice]
  rw [h1, List.drop_append_eq_append_drop, hta,
    List.drop_eq_nil_of_le (by rw [hta]; omega)]
  have hda : a + 1 - a = 1 := by omega
  rw [hda, List.nil_append, List.drop_succ_cons, List.drop_zero]

/-- C7: for a selection confined to one line, typing a registered opening
character wraps the selection in the opener and its paired closer, and the
new selection (anchor, cursor) spans exactly the originally selected text;
no per-character auto-match flag is consulted (the filter is arbitrary in
the state). -/
theorem single_line_selection_wrap (cfg : EditorConfig) (s : EditorState)
    (ch cl : Char)
    (harow : s.anchorRow = s.row)
    (hne : s.anchorCol ≠ s.col)
    (hpair : qmapFind s.markupPairs ch = some cl)
    (hb : max s.anchorCol s.col ≤ (currentLine s).length)
    (hrl : s.row < s.lines.length) :
    typeCharacter cfg s ch =
      { s with
        lines := s.lines.set s.row
          ((currentLine s).take (min s.anchorCol s.col) ++
            ch :: (((currentLine s).take (max s.anchorCol s.col)).drop
                (min s.anchorCol s.col) ++
              cl :: (currentLine s).drop (max s.anchorCol s.col))),
        row := s.row, col := max s.anchorCol s.col + 1,
        anchorRow := s.row, anchorCol := min s.anchorCol s.col + 1 } ∧
    ((currentLine (typeCharacter cfg s ch)).take
        (max s.anchorCol s.col + 1)).drop (min s.anchorCol s.col + 1) =
      ((currentLine s).take (max s.anchorCol s.col)).drop
        (min s.anchorCol s.col) := by
  have hsel : hasSelection s = true := by
    unfold hasSelection
    simp [hne]
  obtain ⟨hsp, hep⟩ := selPos_same_row harow
  have hEnd : handleEndPairCharacterTyped cfg s ch = none := by
    unfold handleEndPairCharacterTyped
    dsimp only
    simp [hsel]
  have hkey : qmapHasKey s.markupPairs ch = true := by
    unfold qmapHasKey
    rw [hpair]
    rfl
  have hval : qmapValueD s.markupPairs ch = cl := by
    unfold qmapValueD
    rw [hpair]
    rfl
  have hIns : insertPairedCharacters cfg s ch =
      some { s with
        lines := s.lines.set s.row
          ((currentLine s).take (min s.anchorCol s.col) ++
            ch :: (((currentLine s).take (max s.anchorCol s.col)).drop
                (min s.anchorCol s.col) ++
              cl :: (currentLine s).drop (max s.anchorCol s.col))),
        row := s.row, col := max s.anchorCol s.col + 1,
        anchorRow := s.row, anchorCol := min s.anchorCol s.col + 1 } := by
    unfold insertPairedCharacters
    dsimp only
    simp only [hkey, if_true, hsel, hsp, hep, hval]
    rfl
  have hmain : typeCharacter cfg s ch =
      { s with
        lines := s.lines.set s.row
          ((currentLine s).take (min s.anchorCol s.col) ++
            ch :: (((currentLine s).take (max s.anchorCol s.col)).drop
                (min s.anchorCol s.col) ++
              cl :: (currentLine s).drop (max s.anchorCol s.col))),
        row := s.row, col := max s.anchorCol s.col + 1,
        anchorRow := s.row, anchorCol := min s.anchorCol s.col + 1 } := by
    unfold typeCharacter
    rw [hEnd]
    dsimp only
    rw [hIns]
  refine ⟨hmain, ?_⟩
  rw [hmain]
  rw [show currentLine
      { s with
        lines := s.lines.set s.row
          ((currentLine s).take (min s.anchorCol s.col) ++
            ch :: (((currentLine s).take (max s.anchorCol s.col)).drop
                (min s.anchorCol s.col) ++
              cl :: (currentLine s).drop (max s.anchorCol s.col))),
        row := s.row, col := max s.anchorCol s.col + 1,
        anchorRow := s.row, anchorCol := min s.anchorCol s.col + 1 } =
      (currentLine s).take (min s.anchorCol s.col) ++
        ch :: (((currentLine s).take (max s.anchorCol s.col)).drop
            (min s.anchorCol s.col) ++
          cl :: (currentLine s).drop (max s.anchorCol s.col))
    from getD_set_self _ _ _ hrl]
  exact slice_after_wrap (currentLine s) (min s.anchorCol s.col)
    (max s.anchorCol s.col) ch cl (min_le_max) hb

/-- Witness for C7: wrapping the selected `"word"` with `*` while the
auto-match flag for `*` is disabled still wraps, yielding `"*word*"` with the
selection spanning exactly `"word"`. -/
theorem single_line_selection_wrap_witness :
    typeCharacter cfgStd
        { mkState [strL "word"] 0 4 with
          anchorCol := 0,
          autoMatchFilter := qmapBoolPut initAutoMatchFilter '*' false } '*' =
      { mkState [strL "word"] 0 4 with
        lines := [strL "*word*"],
        col := 5,
        anchorCol := 1,
        autoMatchFilter := qmapBoolPut initAutoMatchFilter '*' false } ∧
    ((currentLine (typeCharacter cfgStd
        { mkState [strL "word"] 0 4 with
          anchorCol := 0,
          autoMatchFilter := qmapBoolPut initAutoMatchFilter '*' false }
        '*')).take 5).drop 1 = strL "word" := by
  have h := single_line_selection_wrap cfgStd
    { mkState [strL "word"] 0 4 with
      anchorCol := 0,
      autoMatchFilter := qmapBoolPut initAutoMatchFilter '*' false } '*' '*'
    (by decide) (by decide) (by decide) (by decide) (by decide)
  exact ⟨h.1.trans (by decide), h.2.trans (by decide)⟩

/-! ### C6 -/

theorem initPairs_cases {o c : Char}
    (h : qmapFind initMarkupPairs o = some c) : (o, c) ∈ initNinePairs := by
  by_cases h1 : o = '"'
  · subst h1
    have hc := Option.some_inj.mp
      ((show qmapFind initMarkupPairs '"' = some '"' by decide).symm.trans h)
    rw [← hc]
    decide
  by_cases h2 : o = Char.ofNat 39
  · subst h2
    have hc := Option.some_inj.mp
      ((show qmapFind initMarkupPairs (Char.ofNat 39) =
        some (Char.ofNat 39) by decide).symm.trans h)
    rw [← hc]
    decide
  by_cases h3 : o = '('
  · subst h3
    have hc := Option.some_inj.mp
      ((show qmapFind initMarkupPairs '(' = some ')' by decide).symm.trans h)
    rw [← hc]
    decide
  by_cases h4 : o = '*'
  · subst h4
    have hc := Option.some_inj.mp
      ((show qmapFind initMarkupPairs '*' = some '*' by decide).symm.trans h)
    rw [← hc]
    decide
  by_cases h5 : o = '<'
  · subst h5
    have hc := Option.some_inj.mp
      ((show qmapFind initMarkupPairs '<' = some '>' by decide).symm.trans h)
    rw [← hc]
    decide
  by_cases h6 : o = '['
  · subst h6
    have hc := Option.some_inj.mp
      ((show qmapFind initMarkupPairs '[' = some ']' by decide).symm.trans h)
    rw [← hc]
    decide
  by_cases h7 : o = '_'
  · subst h7
    have hc := Option.some_inj.mp
      ((show qmapFind initMarkupPairs '_' = some '_' by decide).symm.trans h)
    rw [← hc]
    decide
  by_cases h8 : o = Char.ofNat 96
  · subst h8
    have hc := Option.some_inj.mp
      ((show qmapFind initMarkupPairs (Char.ofNat 96) =
        some (Char.ofNat 96) by decide).symm.trans h)
    rw [← hc]
    decide
  by_cases h9 : o = Char.ofNat 123
  · subst h9
    have hc := Option.some_inj.mp
      ((show qmapFind initMarkupPairs (Char.ofNat 123) =
        some (Char.ofNat 125) by decide).symm.trans h)
    rw [← hc]
    decide
  exfalso
  rw [show initMarkupPairs = initNinePairs from by decide] at h
  unfold initNinePairs at h
  simp only [qmapFind] at h
  rw [if_neg (fun e => h1 e.symm), if_neg (fun e => h2 e.symm),
    if_neg (fun e => h3 e.symm), if_neg (fun e => h4 e.symm),
    if_neg (fun e => h5 e.symm), if_neg (fun e => h6 e.symm),
    if_neg (fun e => h7 e.symm), if_neg (fun e => h8 e.symm),
    if_neg (fun e => h9 e.symm)] at h
  exact Option.noConfusion h

theorem initPairs_not_closer {o c : Char} (h : (o, c) ∈ initNinePairs)
    (hne : c ≠ o) : (qmapValuesOf initMarkupPairs).contains o = false := by
  simp only [initNinePairs, List.mem_cons, List.not_mem_nil, or_false,
    Prod.mk.injEq] at h
  obtain h | h | h | h | h | h | h | h | h := h <;>
    obtain ⟨rfl, rfl⟩ := h <;>
    first
      | decide
      | exact absurd rfl hne

theorem initPairs_self_facts {o c : Char} (h : (o, c) ∈ initNinePairs)
    (heq : c = o) :
    (qmapValuesOf initMarkupPairs).contains o = true ∧
    qmapKeyOf initMarkupPairs o = o := by
  simp only [initNinePairs, List.mem_cons, List.not_mem_nil, or_false,
    Prod.mk.injEq] at h
  obtain h | h | h | h | h | h | h | h | h := h <;>
    obtain ⟨rfl, rfl⟩ := h <;>
    first
      | exact ⟨by decide, by decide⟩
      | exact absurd heq (by decide)

theorem initPairs_closer_key {o c : Char} (h : (o, c) ∈ initNinePairs) :
    (qmapValuesOf initMarkupPairs).contains c = true ∧
    qmapKeyOf initMarkupPairs c = o := by
  simp only [initNinePairs, List.mem_cons, List.not_mem_nil, or_false,
    Prod.mk.injEq] at h
  obtain h | h | h | h | h | h | h | h | h := h <;>
    obtain ⟨rfl, rfl⟩ := h <;>
    exact ⟨by decide, by decide⟩

/-- C6: with no selection, auto-matching globally enabled and the typed
opener's filter flag set, typing a registered opener `o` (paired with closer
`c`) inserts `o` immediately followed by `c` with the cursor placed between
them — provided the closer-skip branch does not fire first, which for the
self-paired delimiters means the character after the cursor is not `o` —
and typing the corresponding closer `c` when the character immediately after
the cursor equals `c` moves the cursor one position right instead of
inserting a duplicate. -/
theorem pair_autoinsert_and_skip_over (cfg : EditorConfig) (s : EditorState)
    (o c : Char)
    (hmp : s.markupPairs = initMarkupPairs)
    (hload : qmapFind initMarkupPairs o = some c)
    (hglob : cfg.autoMatchEnabled = true)
    (hfil : qmapBoolValue s.autoMatchFilter o = true)
    (hsel : hasSelection s = false) :
    ((c = o → s.col < (currentLine s).length →
        (currentLine s).getD s.col nulChar ≠ o) →
      typeCharacter cfg s o =
        { s with
          lines := s.lines.set s.row
            ((currentLine s).take s.col ++ o :: c :: (currentLine s).drop s.col),
          col := s.col + 1, anchorRow := s.row, anchorCol := s.col + 1 }) ∧
    (s.col < (currentLine s).length →
      (currentLine s).getD s.col nulChar = c →
      typeCharacter cfg s c =
        { s with col := s.col + 1, anchorRow := s.row, anchorCol := s.col + 1 }) := by
  have hmem : (o, c) ∈ initNinePairs := initPairs_cases hload
  have hkey : qmapHasKey s.markupPairs o = true := by
    rw [hmp]
    unfold qmapHasKey
    rw [hload]
    rfl
  have hval : qmapValueD s.markupPairs o = c := by
    rw [hmp]
    unfold qmapValueD
    rw [hload]
    rfl
  have hIns : insertPairedCharacters cfg s o =
      some { s with
        lines := s.lines.set s.row
          ((currentLine s).take s.col ++ o :: c :: (currentLine s).drop s.col),
        col := s.col + 1, anchorRow := s.row, anchorCol := s.col + 1 } := by
    unfold insertPairedCharacters
    simp only [hkey, hsel, hglob, hfil, hval, Bool.false_eq_true,
      Bool.and_self, if_true, if_false]
  constructor
  · intro hguard
    have hEnd : handleEndPairCharacterTyped cfg s o = none := by
      unfold handleEndPairCharacterTyped
      by_cases hco : c = o
      · obtain ⟨hcont, hkeyo⟩ := initPairs_self_facts hmem hco
        rw [hmp]
        simp only [hglob, hsel, hcont, hkeyo, hfil, Bool.not_false,
          Bool.and_self, if_true]
        by_cases hlt : s.col < (currentLine s).length
        · rw [if_pos hlt, if_neg (hguard hco hlt)]
        · rw [if_neg hlt]
      · have hcont := initPairs_not_closer hmem hco
        rw [hmp]
        simp only [hcont, Bool.and_false, Bool.false_and, Bool.false_eq_true,
          if_false]
    unfold typeCharacter
    rw [hEnd, hIns]
  · intro hlt hcc
    obtain ⟨hcontc, hkeyc⟩ := initPairs_closer_key hmem
    have hEndc : handleEndPairCharacterTyped cfg s c =
        some
          { s with
            col := s.col + 1
            anchorRow := s.row
            anchorCol := s.col + 1 } := by
      unfold handleEndPairCharacterTyped
      rw [hmp]
      simp only [hglob, hsel, hcontc, hkeyc, hfil, Bool.not_false,
        Bool.and_self, if_true]
      rw [if_pos hlt, if_pos hcc]
    unfold typeCharacter
    rw [hEndc]

theorem pair_autoinsert_and_skip_over_witness :
    typeCharacter cfgStd (mkState [[]] 0 0) '(' =
      mkState [['(', ')']] 0 1 ∧
    typeCharacter cfgStd (mkState [['(', ')']] 0 1) ')' =
      mkState [['(', ')']] 0 2 := by
  constructor
  · have h := (pair_autoinsert_and_skip_over cfgStd (mkState [[]] 0 0)
      '(' ')' rfl (by decide) rfl (by decide) (by decide)).1
      (fun hc => absurd hc (by decide))
    rw [h]
    decide
  · have h := (pair_autoinsert_and_skip_over cfgStd (mkState [['(', ')']] 0 1)
      '(' ')' rfl (by decide) rfl (by decide) (by decide)).2
      (by decide) (by decide)
    rw [h]
    decide
